import Mathlib

/-!
# WebVPN tunnel client (`client/main.go`): a verification development

A shallow embedding of the client's forwarding logic and proofs about it.

* Go strings that arrive in a decoded frame are valid UTF-8 (the JSON decoder
  replaces invalid bytes), so they are modelled by Lean `String`, and so are the
  command-line settings (server address, key, version); raw bytes (request and
  response bodies, decoded query components) are `List Byte`.
* The pure library functions the client's behaviour depends on
  (`encoding/base64`, `fmt.Sprintf`, `net/url.Parse`, `net/http.Header`,
  `net/http.NewRequestWithContext`, `url.Values`) are modelled as Lean
  functions.
* The parts of the world that the client talks to (the JSON decoder applied to
  an inbound message, the local HTTP service, the websocket connection) are
  explicit parameters: every theorem holds for all their behaviours.
* A session is modelled up to the point where `run` returns: the connection
  delivers finitely many messages and then a read error. The keepalive goroutine
  is modelled on its own; its interleaving with the read loop is not.
-/

namespace WebVPN

/-- Equality of results is decidable when equality of errors and of values is. -/
instance instDecidableEqExcept {ε α : Type} [DecidableEq ε] [DecidableEq α] :
    DecidableEq (Except ε α) := fun a b =>
  match a, b with
  | .ok x, .ok y =>
    if h : x = y then isTrue (by rw [h]) else isFalse (fun h2 => h (Except.ok.inj h2))
  | .error x, .error y =>
    if h : x = y then isTrue (by rw [h]) else isFalse (fun h2 => h (Except.error.inj h2))
  | .ok _, .error _ => isFalse (fun h => by cases h)
  | .error _, .ok _ => isFalse (fun h => by cases h)

/-! ## `encoding/base64`, `StdEncoding` -/

/-- One octet. -/
abbrev Byte := Fin 256

/-- The alphabet of `base64.StdEncoding`. -/
def encodeStd : List Char :=
  "ABCDEFGHIJKLMNOPQRSTUVWXYZabcdefghijklmnopqrstuvwxyz0123456789+/".toList

/-- The lookup `enc.encode[n]` for a six-bit value. -/
def encodeChar (n : Nat) : Char := encodeStd.getD n 'A'

/-- The lookup `enc.decodeMap[in]`: `none` stands for the entry `0xff`. A byte of a
multi-byte character is never in the alphabet, so a non-ASCII character maps to `none`. -/
def decodeMap (c : Char) : Option Nat :=
  let i := encodeStd.indexOf c
  if i < 64 then some i else none

/-- The three octets of a 24-bit quantum given as four six-bit values:
`val := d0<<18 | d1<<12 | d2<<6 | d3`, then `byte(val>>16), byte(val>>8), byte(val)`.
The four values are below 64, so the bitwise OR is a sum. -/
def quantumBytes (d0 d1 d2 d3 : Nat) : Byte × Byte × Byte :=
  let val := d0 * 2 ^ 18 + d1 * 2 ^ 12 + d2 * 2 ^ 6 + d3
  (Fin.ofNat (val / 2 ^ 16), Fin.ofNat (val / 2 ^ 8), Fin.ofNat val)

/-- The encoder `Encoding.Encode` of `StdEncoding`: three octets become four characters,
`val := b0<<16 | b1<<8 | b2`, and a remainder of one or two octets is padded with `=`. -/
def encodeBytes : List Byte → List Char
  | b0 :: b1 :: b2 :: rest =>
    let val := b0.val * 2 ^ 16 + b1.val * 2 ^ 8 + b2.val
    encodeChar (val / 2 ^ 18 % 64) :: encodeChar (val / 2 ^ 12 % 64) ::
      encodeChar (val / 2 ^ 6 % 64) :: encodeChar (val % 64) :: encodeBytes rest
  | [b0, b1] =>
    let val := b0.val * 2 ^ 16 + b1.val * 2 ^ 8
    [encodeChar (val / 2 ^ 18 % 64), encodeChar (val / 2 ^ 12 % 64),
      encodeChar (val / 2 ^ 6 % 64), '=']
  | [b0] =>
    let val := b0.val * 2 ^ 16
    [encodeChar (val / 2 ^ 18 % 64), encodeChar (val / 2 ^ 12 % 64), '=', '=']
  | [] => []

/-- The function `base64.StdEncoding.EncodeToString`. -/
def EncodeToString (src : List Byte) : String := String.mk (encodeBytes src)

/-- The error `base64.CorruptInputError`: the offset of the offending input byte. -/
structure CorruptInputError where
  offset : Nat
deriving DecidableEq, Repr

/-- The method `CorruptInputError.Error`. -/
def CorruptInputError.Error (e : CorruptInputError) : String :=
  "illegal base64 data at input byte " ++ toString e.offset

/-- The loops `for si < len(src) && (src[si] == '\n' || src[si] == '\r') { si++ }`. -/
def skipNewlines : List Char → Nat → List Char × Nat
  | c :: rest, si => if c = '\n' ∨ c = '\r' then skipNewlines rest (si + 1) else (c :: rest, si)
  | [], si => ([], si)

/-- The padding branch of `decodeQuantum`: the first `=` has been consumed (`si` already
counts it) with `dbuf` holding the `j` values read so far in this quantum. -/
def decodePadding (rest : List Char) (si : Nat) (dbuf : List Nat) :
    Except CorruptInputError (List Byte) :=
  match dbuf with
  | [d0, d1] =>
    match skipNewlines rest si with
    | ([], si1) => .error ⟨si1⟩
    | (c :: rest2, si1) =>
      if c ≠ '=' then .error ⟨si1 - 1⟩
      else
        match skipNewlines rest2 (si1 + 1) with
        | ([], _) => .ok [(quantumBytes d0 d1 0 0).1]
        | (_ :: _, si3) => .error ⟨si3⟩
  | [d0, d1, d2] =>
    match skipNewlines rest si with
    | ([], _) => .ok [(quantumBytes d0 d1 d2 0).1, (quantumBytes d0 d1 d2 0).2.1]
    | (_ :: _, si1) => .error ⟨si1⟩
  | _ => .error ⟨si - 1⟩

/-- The decoder `Encoding.Decode` of `StdEncoding` (padded, not strict), as one pass over
the input: `si` is the number of bytes consumed, `dbuf` the six-bit values of the quantum
being read (`j = dbuf.length`). The fast paths of `Decode` compute the same as repeated
`decodeQuantum`, which is what this follows. On an error the octets decoded so far are
dropped, as `forwardRequest` does. -/
def decodeLoop : List Char → Nat → List Nat → Except CorruptInputError (List Byte)
  | [], si, dbuf =>
    match dbuf with
    | [] => .ok []
    | _ :: _ => .error ⟨si - dbuf.length⟩
  | c :: rest, si, dbuf =>
    match decodeMap c with
    | some out =>
      match dbuf with
      | [d0, d1, d2] =>
        match decodeLoop rest (si + 1) [] with
        | .ok tail =>
          .ok ((quantumBytes d0 d1 d2 out).1 :: (quantumBytes d0 d1 d2 out).2.1 ::
            (quantumBytes d0 d1 d2 out).2.2 :: tail)
        | .error e => .error e
      | _ => decodeLoop rest (si + 1) (dbuf ++ [out])
    | none =>
      if c = '\n' ∨ c = '\r' then decodeLoop rest (si + 1) dbuf
      else if c ≠ '=' then .error ⟨si⟩
      else decodePadding rest (si + 1) dbuf

/-- The function `base64.StdEncoding.DecodeString`. -/
def DecodeString (s : String) : Except CorruptInputError (List Byte) :=
  decodeLoop s.toList 0 []

/-- The body-decode step of `forwardRequest` (lines 113-120): an empty body field is
zero bytes, anything else goes through `DecodeString`. -/
def decodeBody (body : String) : Except CorruptInputError (List Byte) :=
  if body ≠ "" then DecodeString body else .ok []

/-! ## Strings -/

/-- The part of `s` before the first `sep` (all of `s` when there is none):
the first result of `strings.Cut(s, sep)` for a one-byte separator. -/
def cutBefore (sep : Char) (s : List Char) : List Char := s.takeWhile (· != sep)

/-- The part of `s` after the first `sep` (empty when there is none):
the second result of `strings.Cut(s, sep)`. -/
def cutAfter (sep : Char) (s : List Char) : List Char := (s.dropWhile (· != sep)).drop 1

/-- The part of `s` after the last `sep` (all of `s` when there is none): `s[i+1:]` for
`i := strings.LastIndex(s, sep)`. -/
def afterLast (sep : Char) (s : List Char) : List Char := (cutBefore sep s.reverse).reverse

/-- The part of `s` before the last `sep`: `s[:i]` for `i := strings.LastIndex(s, sep)`. -/
def beforeLast (sep : Char) (s : List Char) : List Char := (cutAfter sep s.reverse).reverse

/-- The pieces of `s` between the occurrences of `sep`. -/
def splitOn (sep : Char) : List Char → List (List Char)
  | [] => [[]]
  | c :: cs =>
    match splitOn sep cs with
    | [] => [[]]
    | seg :: segs => if c = sep then [] :: seg :: segs else (c :: seg) :: segs

/-- The test `ishex` of `net/url`. -/
def ishex (c : Char) : Bool :=
  c.isDigit || ('a' ≤ c && c ≤ 'f') || ('A' ≤ c && c ≤ 'F')

/-- The function `unhex` of `net/url`. -/
def unhex (c : Char) : Nat :=
  if c.isDigit then c.toNat - '0'.toNat
  else if 'a' ≤ c && c ≤ 'f' then c.toNat - 'a'.toNat + 10
  else if 'A' ≤ c && c ≤ 'F' then c.toNat - 'A'.toNat + 10
  else 0

/-- The digit `upperhex[n]` of `net/url`. -/
def upperhex (n : Nat) : Char := "0123456789ABCDEF".toList.getD n '0'

/-- The UTF-8 bytes of a string: what a Go `string` holding this text consists of. -/
def utf8 (s : List Char) : List Byte :=
  s.flatMap fun c => (String.utf8EncodeChar c).map fun b => Fin.ofNat b.toNat

/-- The verb `%d` of `fmt.Sprintf` on an `int`. -/
def formatInt (n : Int) : String := toString n

/-! ## `net/textproto`, `net/http.Header` -/

/-- The set of `token` characters of RFC 7230 (`validHeaderFieldByte` in `net/textproto`,
`httpguts.IsTokenRune`): letters, digits and the marks ``!#$%&'*+-.^_`|~``. -/
def validHeaderFieldByte (c : Char) : Bool :=
  c.isAlphanum || "!#$%&*+-.^_|~".toList.contains c || c == Char.ofNat 39 || c == Char.ofNat 96

/-- The second loop of `canonicalMIMEHeaderKey`: upper case for the first letter and for
each letter after a dash, lower case elsewhere. -/
def canonicalLoop : Bool → List Char → List Char
  | _, [] => []
  | upper, c :: cs =>
    let c1 :=
      if upper && c.isLower then c.toUpper
      else if !upper && c.isUpper then c.toLower
      else c
    c1 :: canonicalLoop (c1 == '-') cs

/-- The function `textproto.CanonicalMIMEHeaderKey`: a key made of token characters only is
put in canonical form, any other key (one with a space, a non-token byte or a non-ASCII
character) is returned unchanged. -/
def CanonicalMIMEHeaderKey (s : String) : String :=
  if s.toList.all validHeaderFieldByte then String.mk (canonicalLoop true s.toList) else s

/-- The type `http.Header`, a `map[string][]string`: `none` for a key that is absent. -/
abbrev Header := String → Option (List String)

/-- The empty map `make(Header)`. -/
def Header.empty : Header := fun _ => none

/-- The method `Header.Set`: `h[CanonicalMIMEHeaderKey(key)] = []string{value}`. -/
def Header.Set (h : Header) (key value : String) : Header :=
  Function.update h (CanonicalMIMEHeaderKey key) (some [value])

/-- The method `Header.Add`: `h[k] = append(h[k], value)` for the canonical key `k`. -/
def Header.Add (h : Header) (key value : String) : Header :=
  Function.update h (CanonicalMIMEHeaderKey key)
    (some ((h (CanonicalMIMEHeaderKey key)).getD [] ++ [value]))

/-! ## The frames (`main.go`, lines 19-33) -/

/-- An element of a JSON array decoded into `[]interface{}`: a string, or any other JSON
value (number, boolean, null, array, object), whose content the client never looks at. -/
inductive JsonItem where
  | str (s : String)
  | other
deriving DecidableEq, Repr

/-- A header value decoded into `interface{}`: a string, an array, or any other JSON value. -/
inductive JsonValue where
  | str (s : String)
  | arr (items : List JsonItem)
  | other
deriving DecidableEq, Repr

/-- The struct `ProxyRequest`. `Headers` lists the entries of the Go map in the order in which
the `range` loop of `forwardRequest` visits them (Go leaves that order unspecified, so every
order of the entries is a possible value). -/
structure ProxyRequest where
  ID : String
  Method : String
  Path : String
  Headers : List (String × JsonValue)
  Body : String
deriving DecidableEq, Repr

/-- The zero value of `ProxyRequest`. -/
def ProxyRequest.zero : ProxyRequest :=
  { ID := "", Method := "", Path := "", Headers := [], Body := "" }

/-- The struct `ProxyResponse`. A field at its zero value (`0`, `none` for the nil map, `""`)
is unset: `omitempty` leaves it out of the JSON text. -/
structure ProxyResponse where
  ID : String
  Status : Int
  Headers : Option Header
  Body : String
  Error : String

/-! ## `net/url`

The model keeps every component of a URL in the escaped form in which it stood in the
input (Go stores the percent-decoded bytes of host, user and path, which are a function of
the escaped form); the checks that make `Parse` fail are all modelled. -/

/-- The modes of `shouldEscape` and `unescape` that parsing uses. -/
inductive Encoding where
  | encodePath
  | encodeHost
  | encodeZone
  | encodeUserPassword
  | encodeFragment
deriving DecidableEq, Repr

/-- The errors that `url.Parse` wraps in a `*url.Error`. -/
inductive ParseError where
  /-- The text `net/url: invalid control character in URL`. -/
  | invalidControlCharacter
  /-- The text `missing protocol scheme`. -/
  | missingProtocolScheme
  /-- The text `first path segment in URL cannot contain colon`. -/
  | firstPathSegmentColon
  /-- The text `invalid port %q after host`. -/
  | invalidPort (colonPort : String)
  /-- The text `missing ']' in host`. -/
  | missingBracket
  /-- The type `url.EscapeError`: `invalid URL escape %q`. -/
  | escapeError (s : String)
  /-- The type `url.InvalidHostError`: `invalid character %q in host name`. -/
  | invalidHostError (s : String)
  /-- The text `net/url: invalid userinfo`. -/
  | invalidUserinfo
deriving DecidableEq, Repr

/-- The message of a parse error; `quote` is `strconv.Quote`. -/
def ParseError.Error (quote : String → String) : ParseError → String
  | .invalidControlCharacter => "net/url: invalid control character in URL"
  | .missingProtocolScheme => "missing protocol scheme"
  | .firstPathSegmentColon => "first path segment in URL cannot contain colon"
  | .invalidPort colonPort => "invalid port " ++ quote colonPort ++ " after host"
  | .missingBracket => "missing " ++ String.mk [Char.ofNat 39, ']', Char.ofNat 39] ++ " in host"
  | .escapeError s => "invalid URL escape " ++ quote s
  | .invalidHostError s => "invalid character " ++ quote s ++ " in host name"
  | .invalidUserinfo => "net/url: invalid userinfo"

/-- The struct `url.URL`, components in escaped form. `User` is the userinfo of the authority
(`none` when the authority has no `@`), `Host` is `host` or `host:port`. `Path` and
`Fragment` are an escaped form of the path and of the fragment; `RawPath` and
`RawFragment` are, as in Go, the form they had in the input when that is not the default
encoding, and empty otherwise. -/
structure URL where
  Scheme : String
  Opaque : String
  User : Option String
  Host : String
  Path : String
  RawPath : String
  OmitHost : Bool
  ForceQuery : Bool
  RawQuery : String
  Fragment : String
  RawFragment : String
deriving DecidableEq, Repr

/-- The zero value of `url.URL`. -/
def URL.zero : URL :=
  { Scheme := "", Opaque := "", User := none, Host := "", Path := "", RawPath := "",
    OmitHost := false, ForceQuery := false, RawQuery := "", Fragment := "",
    RawFragment := "" }

/-- The function `stringContainsCTLByte`. -/
def stringContainsCTLByte (s : List Char) : Bool :=
  s.any fun c => c.toNat < 32 || c.toNat == 127

/-- The loop of `getScheme`; `first` says that the index is 0, `acc` is `rawURL[:i]`. -/
def schemeLoop (rawURL : List Char) :
    List Char → List Char → Bool → Except ParseError (List Char × List Char)
  | [], _, _ => .ok ([], rawURL)
  | c :: cs, acc, first =>
    if c.isAlpha then schemeLoop rawURL cs (acc ++ [c]) false
    else if c.isDigit || c == '+' || c == '-' || c == '.' then
      if first then .ok ([], rawURL) else schemeLoop rawURL cs (acc ++ [c]) false
    else if c == ':' then
      if first then .error .missingProtocolScheme else .ok (acc, cs)
    else .ok ([], rawURL)

/-- The function `getScheme`: the scheme and what follows its colon. -/
def getScheme (rawURL : List Char) : Except ParseError (List Char × List Char) :=
  schemeLoop rawURL rawURL [] true

/-- The value `shouldEscape(c, encodeHost)` for a byte. -/
def shouldEscapeHost (c : Nat) : Bool :=
  let ch := Char.ofNat c
  !(c < 128 && (ch.isAlphanum || "!$&()*+,;=:[]<>".toList.contains ch || c == 39 || c == 34
    || "-_.~".toList.contains ch))

/-- The function `shouldEscape(c, mode)` for a byte, in the modes of a URL outside its
query. -/
def shouldEscape (c : Nat) (mode : Encoding) : Bool :=
  if mode = .encodeHost || mode = .encodeZone then shouldEscapeHost c
  else if c < 128 && (Char.ofNat c).isAlphanum then false
  else if c < 128 && "-_.~".toList.contains (Char.ofNat c) then false
  else if c < 128 && "$&+,/:;=?@".toList.contains (Char.ofNat c) then
    match mode with
    | .encodePath => c == 63
    | .encodeUserPassword => c == 64 || c == 47 || c == 63 || c == 58
    | .encodeFragment => false
    | _ => true
  else if mode = .encodeFragment && c < 128 && "!()*".toList.contains (Char.ofNat c) then false
  else true

/-- The decoding pass of `unescape(s, mode)` outside the query: `%XX` is the byte `XX`,
anything else stands for itself. -/
def unescape : List Char → List Byte
  | c :: a :: b :: rest =>
    if c = '%' && ishex a && ishex b then Fin.ofNat (unhex a * 16 + unhex b) :: unescape rest
    else utf8 [c] ++ unescape (a :: b :: rest)
  | c :: rest => utf8 [c] ++ unescape rest
  | [] => []

/-- The function `escape(s, mode)` outside the query: a byte that `shouldEscape` names
becomes `%XX`, with upper-case digits. -/
def escape (mode : Encoding) (s : List Byte) : List Char :=
  s.flatMap fun b =>
    if shouldEscape b.val mode then ['%', upperhex (b.val / 16), upperhex (b.val % 16)]
    else [Char.ofNat b.val]

/-- The function `validEncoded(s, mode)`. -/
def validEncoded (s : List Char) (mode : Encoding) : Bool :=
  s.all fun c =>
    "!$&()*+,;=:@[]%".toList.contains c || c == Char.ofNat 39
      || (c.toNat < 128 && !shouldEscape c.toNat mode)

/-- The raw form that `setPath` and `setFragment` keep: the input when it is not the
default encoding of what it decodes to, and nothing otherwise. -/
def rawForm (mode : Encoding) (p : List Char) : List Char :=
  if escape mode (unescape p) = p then [] else p

/-- The validation pass of `unescape(s, mode)`: the first offending escape or host
character, if there is one. -/
def unescapeCheck (mode : Encoding) : List Char → Except ParseError Unit
  | [] => .ok ()
  | c :: rest =>
    if c = '%' then
      match rest with
      | a :: b :: rest2 =>
        if !ishex a || !ishex b then .error (.escapeError (String.mk [c, a, b]))
        else if mode = .encodeHost && unhex a < 8 && !(a == '2' && b == '5') then
          .error (.escapeError (String.mk [c, a, b]))
        else if mode = .encodeZone && !(a == '2' && b == '5') && unhex a * 16 + unhex b != 32
            && shouldEscapeHost (unhex a * 16 + unhex b) then
          .error (.escapeError (String.mk [c, a, b]))
        else unescapeCheck mode rest2
      | _ => .error (.escapeError (String.mk (c :: rest)))
    else if (mode = .encodeHost || mode = .encodeZone) && c.toNat < 128
        && shouldEscapeHost c.toNat then
      .error (.invalidHostError (String.mk [c]))
    else unescapeCheck mode rest

/-- The function `validOptionalPort`: empty, or a colon followed by digits only. -/
def validOptionalPort (port : List Char) : Bool :=
  match port with
  | [] => true
  | c :: ds => c == ':' && ds.all Char.isDigit

/-- The index `strings.Index(s, "%25")`. -/
def indexZone : List Char → Option Nat
  | [] => none
  | c :: cs =>
    if c == '%' && cs.take 2 == ['2', '5'] then some 0 else (indexZone cs).map (· + 1)

/-- The function `parseHost`; the result is the host in escaped form. -/
def parseHost (host : List Char) : Except ParseError (List Char) :=
  if host.head? = some '[' then
    if !host.contains ']' then .error .missingBracket
    else if !validOptionalPort (afterLast ']' host) then
      .error (.invalidPort (String.mk (afterLast ']' host)))
    else
      match indexZone (beforeLast ']' host) with
      | some zone =>
        match unescapeCheck .encodeHost (host.take zone) with
        | .error e => .error e
        | .ok _ =>
          match unescapeCheck .encodeZone ((beforeLast ']' host).drop zone) with
          | .error e => .error e
          | .ok _ =>
            match unescapeCheck .encodeHost (']' :: afterLast ']' host) with
            | .error e => .error e
            | .ok _ => .ok host
      | none =>
        match unescapeCheck .encodeHost host with
        | .error e => .error e
        | .ok _ => .ok host
  else if host.contains ':' && !validOptionalPort (':' :: afterLast ':' host) then
    .error (.invalidPort (String.mk (':' :: afterLast ':' host)))
  else
    match unescapeCheck .encodeHost host with
    | .error e => .error e
    | .ok _ => .ok host

/-- The function `validUserinfo`. -/
def validUserinfo (s : List Char) : Bool :=
  s.all fun r => r.isAlphanum || "-._:~!$&()*+,;=%@".toList.contains r || r == Char.ofNat 39

/-- The function `parseAuthority`: the userinfo, if any, and the host. -/
def parseAuthority (authority : List Char) :
    Except ParseError (Option (List Char) × List Char) :=
  if !authority.contains '@' then
    match parseHost authority with
    | .error e => .error e
    | .ok host => .ok (none, host)
  else
    match parseHost (afterLast '@' authority) with
    | .error e => .error e
    | .ok host =>
      let userinfo := beforeLast '@' authority
      if !validUserinfo userinfo then .error .invalidUserinfo
      else
        match unescapeCheck .encodeUserPassword (cutBefore ':' userinfo) with
        | .error e => .error e
        | .ok _ =>
          match unescapeCheck .encodeUserPassword (cutAfter ':' userinfo) with
          | .error e => .error e
          | .ok _ => .ok (some userinfo, host)

/-- The query split of `parse`: a lone `?` at the very end sets `ForceQuery` and is dropped,
otherwise the text is cut at the first `?`. The result is what stays, the raw query and
`ForceQuery`. -/
def splitQuery (rest0 : List Char) : List Char × List Char × Bool :=
  if rest0.getLast? = some '?' && rest0.count '?' = 1 then (rest0.dropLast, [], true)
  else (cutBefore '?' rest0, cutAfter '?' rest0, false)

/-- The rest of `parse` (for `viaRequest = false`) once the scheme and the query are split
off: an opaque URL, or authority and path. `url` holds the scheme and the query. -/
def parseHier (scheme rest : List Char) (url : URL) : Except ParseError URL :=
  if rest.head? ≠ some '/' && scheme ≠ [] then .ok { url with Opaque := String.mk rest }
  else if rest.head? ≠ some '/' && (cutBefore '/' rest).contains ':' then
    .error .firstPathSegmentColon
  else if (scheme ≠ [] || rest.take 3 ≠ ['/', '/', '/']) && rest.take 2 = ['/', '/'] then
    match parseAuthority (cutBefore '/' (rest.drop 2)) with
    | .error e => .error e
    | .ok (user, host) =>
      match unescapeCheck .encodePath ((rest.drop 2).dropWhile (· != '/')) with
      | .error e => .error e
      | .ok _ =>
        .ok { url with User := user.map String.mk, Host := String.mk host,
                       Path := String.mk ((rest.drop 2).dropWhile (· != '/')),
                       RawPath := String.mk
                         (rawForm .encodePath ((rest.drop 2).dropWhile (· != '/'))) }
  else
    match unescapeCheck .encodePath rest with
    | .error e => .error e
    | .ok _ =>
      .ok { url with Path := String.mk rest,
                     RawPath := String.mk (rawForm .encodePath rest),
                     OmitHost := decide (scheme ≠ []) && rest.head? = some '/' }

/-- The function `parse(rawURL, viaRequest)` of `net/url` for `viaRequest = false`: the URL
without its fragment. -/
def parse (rawURL : List Char) : Except ParseError URL :=
  if stringContainsCTLByte rawURL then .error .invalidControlCharacter
  else if rawURL = ['*'] then .ok { URL.zero with Path := "*" }
  else
    match getScheme rawURL with
    | .error e => .error e
    | .ok (scheme, rest0) =>
      parseHier scheme (splitQuery rest0).1
        { URL.zero with Scheme := String.mk (scheme.map Char.toLower),
                        RawQuery := String.mk (splitQuery rest0).2.1,
                        ForceQuery := (splitQuery rest0).2.2 }

/-- The struct `url.Error`, as `Parse` returns it: the operation is `parse`. -/
structure ParseFailure where
  URL : String
  Err : ParseError
deriving DecidableEq, Repr

/-- The method `(*url.Error).Error`: `fmt.Sprintf("%s %q: %s", e.Op, e.URL, e.Err)`. -/
def ParseFailure.Error (quote : String → String) (e : ParseFailure) : String :=
  "parse " ++ quote e.URL ++ ": " ++ e.Err.Error quote

/-- The function `url.Parse`: the fragment is cut off first and checked last. -/
def Parse (rawURL : String) : Except ParseFailure URL :=
  match parse (cutBefore '#' rawURL.toList) with
  | .error e => .error { URL := String.mk (cutBefore '#' rawURL.toList), Err := e }
  | .ok url =>
    if cutAfter '#' rawURL.toList = [] then .ok url
    else
      match unescapeCheck .encodeFragment (cutAfter '#' rawURL.toList) with
      | .error e => .error { URL := rawURL, Err := e }
      | .ok _ =>
        .ok { url with Fragment := String.mk (cutAfter '#' rawURL.toList),
                       RawFragment := String.mk
                         (rawForm .encodeFragment (cutAfter '#' rawURL.toList)) }

/-- The method `Userinfo.String` for the userinfo of an authority: the user name, and the
password after a colon when the userinfo has one, each decoded and escaped again. -/
def userinfoString (userinfo : List Char) : List Char :=
  if userinfo.contains ':' then
    escape .encodeUserPassword (unescape (cutBefore ':' userinfo))
      ++ ':' :: escape .encodeUserPassword (unescape (cutAfter ':' userinfo))
  else escape .encodeUserPassword (unescape userinfo)

/-- The method `URL.EscapedPath`: `RawPath` when it is a valid encoding of the path, and
the default encoding of the path otherwise. -/
def URL.EscapedPath (u : URL) : List Char :=
  if u.RawPath ≠ "" && validEncoded u.RawPath.toList .encodePath
      && unescape u.RawPath.toList = unescape u.Path.toList then u.RawPath.toList
  else if unescape u.Path.toList = utf8 ['*'] then ['*']
  else escape .encodePath (unescape u.Path.toList)

/-- The method `URL.EscapedFragment`. -/
def URL.EscapedFragment (u : URL) : List Char :=
  if u.RawFragment ≠ "" && validEncoded u.RawFragment.toList .encodeFragment
      && unescape u.RawFragment.toList = unescape u.Fragment.toList then u.RawFragment.toList
  else escape .encodeFragment (unescape u.Fragment.toList)

/-- What `URL.String` writes for the authority of a URL without an opaque part: nothing
when the URL has neither scheme, host nor userinfo or when the host is to be omitted,
and otherwise `//` (when there is a host, a path or a userinfo), the userinfo with `@`,
and the host. -/
def URL.authorityString (u : URL) : List Char :=
  if (u.Scheme ≠ "" || u.Host ≠ "" || u.User.isSome)
      && !(u.OmitHost && u.Host = "" && u.User.isNone) then
    (if u.Host ≠ "" || u.Path ≠ "" || u.User.isSome then ['/', '/'] else [])
      ++ (match u.User with
          | some userinfo => userinfoString userinfo.toList ++ ['@']
          | none => [])
      ++ (if u.Host ≠ "" then escape .encodeHost (unescape u.Host.toList) else [])
  else []

/-- What `URL.String` writes between the scheme and the query of a URL without an opaque
part: the authority, a `/` when a path that does not begin with one follows a host, `./`
when nothing is written yet and the first segment of the path holds a colon, and the
path. -/
def URL.hierString (u : URL) : List Char :=
  u.authorityString
    ++ (if u.EscapedPath ≠ [] && u.EscapedPath.head? ≠ some '/' && u.Host ≠ "" then ['/']
        else [])
    ++ (if u.Scheme = "" && u.authorityString = []
          && !(u.EscapedPath ≠ [] && u.EscapedPath.head? ≠ some '/' && u.Host ≠ "")
          && (cutBefore '/' u.EscapedPath).contains ':' then ['.', '/']
        else [])
    ++ u.EscapedPath

/-- The method `URL.String`. -/
def URL.String (u : URL) : String :=
  String.mk (
    (if u.Scheme ≠ "" then u.Scheme.toList ++ [':'] else [])
      ++ (if u.Opaque ≠ "" then u.Opaque.toList else u.hierString)
      ++ (if u.ForceQuery || u.RawQuery ≠ "" then '?' :: u.RawQuery.toList else [])
      ++ (if u.Fragment ≠ "" then '#' :: u.EscapedFragment else []))

/-! ## `url.Values` -/

/-- The type `url.Values`, a `map[string][]string` whose keys and values are decoded query
components, that is arbitrary byte strings. The entries have pairwise different keys. -/
abbrev Values := List (List Byte × List (List Byte))

/-- The lookup `v[key]`. -/
def Values.get : Values → List Byte → Option (List (List Byte))
  | [], _ => none
  | (k0, v0) :: rest, key => if k0 = key then some v0 else Values.get rest key

/-- The assignment `v[key] = vs`. -/
def Values.store : Values → List Byte → List (List Byte) → Values
  | [], key, vs => [(key, vs)]
  | (k0, v0) :: rest, key, vs =>
    if k0 = key then (key, vs) :: rest else (k0, v0) :: Values.store rest key vs

/-- The method `Values.Set`: `v[key] = []string{value}`. -/
def Values.Set (v : Values) (key value : List Byte) : Values := v.store key [value]

/-- The function `QueryUnescape`: `+` is a space, `%XX` is the byte `XX`, anything else
stands for itself; `none` for a malformed escape. -/
def QueryUnescape : List Char → Option (List Byte)
  | [] => some []
  | c :: rest =>
    if c = '%' then
      match rest with
      | a :: b :: rest2 =>
        if ishex a && ishex b then
          (QueryUnescape rest2).map fun t => Fin.ofNat (unhex a * 16 + unhex b) :: t
        else none
      | _ => none
    else if c = '+' then (QueryUnescape rest).map fun t => Fin.ofNat 32 :: t
    else (QueryUnescape rest).map fun t => utf8 [c] ++ t

/-- One round of the loop of `parseQuery` on the piece `key` cut off at `&`. -/
def parseQueryPiece (m : Values) (piece : List Char) : Values :=
  if piece.contains ';' then m
  else if piece = [] then m
  else
    match QueryUnescape (cutBefore '=' piece), QueryUnescape (cutAfter '=' piece) with
    | some key, some value => m.store key ((m.get key).getD [] ++ [value])
    | _, _ => m

/-- The method `URL.Query`: `ParseQuery(u.RawQuery)` with its error dropped, so malformed
pieces are skipped. -/
def URL.Query (u : URL) : Values :=
  (splitOn '&' u.RawQuery.toList).foldl parseQueryPiece []

/-- The function `QueryEscape`. -/
def QueryEscape (s : List Byte) : List Char :=
  s.flatMap fun b =>
    if b.val < 128 && ((Char.ofNat b.val).isAlphanum
        || "-_.~".toList.contains (Char.ofNat b.val)) then [Char.ofNat b.val]
    else if b.val = 32 then ['+']
    else ['%', upperhex (b.val / 16), upperhex (b.val % 16)]

/-- The order of `slices.Sort` on strings: bytewise lexicographic. -/
def bytesLE : List Byte → List Byte → Bool
  | [], _ => true
  | _ :: _, [] => false
  | a :: as, b :: bs => a < b || (a == b && bytesLE as bs)

/-- Insertion of an entry into a list of entries sorted by key. -/
def insertByKey (p : List Byte × List (List Byte)) : Values → Values
  | [] => [p]
  | q :: rest => if bytesLE p.1 q.1 then p :: q :: rest else q :: insertByKey p rest

/-- The method `Values.Encode`: `key=value` pairs, keys in sorted order, joined by `&`. -/
def Values.Encode (v : Values) : String :=
  String.mk (List.intercalate ['&']
    ((v.foldr insertByKey []).flatMap fun kv =>
      kv.2.map fun value => QueryEscape kv.1 ++ '=' :: QueryEscape value))

/-! ## `net/http` requests and responses -/

/-- The struct `http.Request`, the fields a client request is made of. -/
structure HttpRequest where
  Method : String
  URL : URL
  Header : Header
  Host : String
  Body : List Byte

/-- The function `validMethod`: a non-empty token. -/
def validMethod (method : String) : Bool :=
  method ≠ "" && method.toList.all validHeaderFieldByte

/-- The function `removeEmptyPort`: a trailing colon with no port after it is removed. -/
def removeEmptyPort (host : String) : String :=
  if host.toList.contains ':' && !(afterLast ':' host.toList).contains ']'
      && host.toList.getLast? = some ':' then
    String.mk host.toList.dropLast
  else host

/-- The struct `url.Error` that `Client.Do` returns on failure: the operation, the URL and
the message of the underlying error. -/
structure TransportError where
  Op : String
  URL : String
  Err : String
deriving DecidableEq, Repr

/-- The errors that reading the body of a response returns in the Go HTTP/1.1 client
(`io.ReadAll(res.Body)` on a plain `http` connection), by origin. -/
inductive ReadError where
  /-- The value `io.ErrUnexpectedEOF`: the connection ended before the announced length or
  before the last chunk. -/
  | unexpectedEOF
  /-- A `*net.OpError` of the connection, such as a reset: the operation, the network, the
  local and the remote address when known, and the message of the underlying error. -/
  | opError (op net : String) (source addr : Option String) (cause : String)
  /-- The chunked reader: `malformed chunked encoding`. -/
  | malformedChunked
  /-- The chunked reader: `invalid byte in chunk length`. -/
  | invalidChunkLength
  /-- The chunked reader: `http chunk length too large`. -/
  | chunkTooLarge
  /-- The chunked reader: `header line too long`. -/
  | lineTooLong
  /-- The trailer of a chunked body: `http: unexpected EOF reading trailer`. -/
  | trailerEOF
  /-- The transparent gzip decoding: `gzip.ErrHeader`. -/
  | gzipHeader
  /-- The transparent gzip decoding: `gzip.ErrChecksum`. -/
  | gzipChecksum
  /-- The transparent gzip decoding: `flate.CorruptInputError`. -/
  | flateCorrupt (offset : Nat)
  /-- The timeout of the client (30 seconds) expired while the body was read: `cancelTimerBody`
  appends a fixed text to the message of the underlying error. -/
  | timeout (cause : String)
deriving DecidableEq, Repr

/-- The method `Error` of those values. -/
def ReadError.Error : ReadError → String
  | .unexpectedEOF => "unexpected EOF"
  | .opError op net source addr cause =>
    op ++ (if net ≠ "" then " " ++ net else "")
      ++ (match source with
          | some s => " " ++ s
          | none => "")
      ++ (match addr with
          | some a => (if source.isSome then "->" else " ") ++ a
          | none => "")
      ++ ": " ++ cause
  | .malformedChunked => "malformed chunked encoding"
  | .invalidChunkLength => "invalid byte in chunk length"
  | .chunkTooLarge => "http chunk length too large"
  | .lineTooLong => "header line too long"
  | .trailerEOF => "http: unexpected EOF reading trailer"
  | .gzipHeader => "gzip: invalid header"
  | .gzipChecksum => "gzip: invalid checksum"
  | .flateCorrupt offset => "flate: corrupt input before offset " ++ toString offset
  | .timeout cause => cause ++ " (Client.Timeout or context cancellation while reading body)"

/-- The struct `http.Response` as `forwardRequest` uses it; `Body` is the result of
`io.ReadAll(res.Body)`, the bytes read or the read error. -/
structure HttpResponse where
  StatusCode : Int
  Header : Header
  Body : Except ReadError (List Byte)

/-- The `error` values that `forwardRequest` returns. -/
inductive ForwardError where
  /-- Line 117: the body is not base64. -/
  | corruptInput (e : CorruptInputError)
  /-- Line 125: `fmt.Errorf("net/http: invalid method %q", method)`. -/
  | invalidMethod (method : String)
  /-- Line 125: the target does not parse. -/
  | parseFailure (e : ParseFailure)
  /-- Line 145: the HTTP exchange failed. -/
  | transport (e : TransportError)
  /-- Line 151: reading the response body failed. -/
  | bodyRead (e : ReadError)
deriving DecidableEq, Repr

/-- The method `Error` of those values; `quote` is `strconv.Quote`. -/
def ForwardError.Error (quote : String → String) : ForwardError → String
  | .corruptInput e => e.Error
  | .invalidMethod method => "net/http: invalid method " ++ quote method
  | .parseFailure e => e.Error quote
  | .transport e => e.Op ++ " " ++ quote e.URL ++ ": " ++ e.Err
  | .bodyRead e => e.Error

/-- The function `http.NewRequestWithContext` (with `context.Background()` and a
`bytes.Reader` on `body`). The errors are those of line 125. -/
def NewRequestWithContext (method url : String) (body : List Byte) :
    Except ForwardError HttpRequest :=
  let method1 := if method = "" then "GET" else method
  if !validMethod method1 then .error (.invalidMethod method1)
  else
    match Parse url with
    | .error e => .error (.parseFailure e)
    | .ok u =>
      .ok { Method := method1, URL := { u with Host := removeEmptyPort u.Host },
            Header := Header.empty, Host := removeEmptyPort u.Host, Body := body }

/-! ## The world around the client -/

/-- The websocket connection of one session: the messages `ReadMessage` returns, in order,
the error of the read after the last of them, and for the write of each round of the read
loop the error `WriteJSON` returns, if it fails. (On a `gorilla/websocket` connection a
write that follows a failed write fails as well; the theorems hold for every `writeErr`.) -/
structure Conn where
  reads : List String
  readErr : String
  writeErr : Nat → Option String

/-- What the client does not decide itself. `quote` is `strconv.Quote`, used in error
messages. `Unmarshal` is `json.Unmarshal(message, &req)`
on a zero `req`: the request as populated, and the error if there is one (a message that
is not JSON leaves `req` at its zero value, a value of the wrong type for a field leaves
the other fields populated). `Do` is `client.Do` for the request built in the given round
of the read loop. `Dial` is `websocket.DefaultDialer.Dial` on the text of a URL. -/
structure Env where
  quote : String → String
  Unmarshal : String → ProxyRequest × Option String
  Do : Nat → HttpRequest → Except TransportError HttpResponse
  Dial : String → Except String Conn

/-! ## The client (`main.go`) -/

/-- The body of the `range` loop of `forwardRequest` (lines 129-138) for one entry of the
header map: a string is `Set`, the string elements of a list are `Add`ed in order,
anything else is skipped. -/
def applyHeader (h : Header) (key : String) (value : JsonValue) : Header :=
  match value with
  | .str typed => h.Set key typed
  | .arr typed =>
    typed.foldl (fun acc item =>
      match item with
      | .str str => acc.Add key str
      | .other => acc) h
  | .other => h

/-- The `range` loop of `forwardRequest` (lines 128-139) over the entries in visiting order. -/
def applyHeaders (h : Header) (headers : List (String × JsonValue)) : Header :=
  headers.foldl (fun acc kv => applyHeader acc kv.1 kv.2) h

/-- The target of line 122: `fmt.Sprintf("http://127.0.0.1:%d%s", port, req.Path)`. -/
def target (port : Int) (path : String) : String :=
  "http://127.0.0.1:" ++ formatInt port ++ path

/-- Lines 113-140 of `forwardRequest`: the request handed to `client.Do`, or the error that
makes `forwardRequest` return before any HTTP exchange. -/
def buildRequest (req : ProxyRequest) (port : Int) : Except ForwardError HttpRequest :=
  match decodeBody req.Body with
  | .error err => .error (.corruptInput err)
  | .ok bodyBytes =>
    match NewRequestWithContext req.Method (target port req.Path) bodyBytes with
    | .error err => .error err
    | .ok httpReq =>
      .ok { httpReq with Header := applyHeaders httpReq.Header req.Headers,
                         Host := "127.0.0.1" }

/-- What one call of `forwardRequest` did: the requests it handed to `client.Do` and the
pair `(*ProxyResponse, error)` it returned. -/
structure Forwarded where
  calls : List HttpRequest
  result : Except ForwardError ProxyResponse

/-- The function `forwardRequest`; `round` is the round of the read loop it is called in. -/
def forwardRequest (env : Env) (round : Nat) (req : ProxyRequest) (port : Int) : Forwarded :=
  match buildRequest req port with
  | .error err => { calls := [], result := .error err }
  | .ok httpReq =>
    match env.Do round httpReq with
    | .error err => { calls := [httpReq], result := .error (.transport err) }
    | .ok res =>
      match res.Body with
      | .error err => { calls := [httpReq], result := .error (.bodyRead err) }
      | .ok responseBody =>
        { calls := [httpReq],
          result := .ok { ID := req.ID, Status := res.StatusCode, Headers := some res.Header,
                          Body := EncodeToString responseBody, Error := "" } }

/-- What the session does that can be observed from outside. -/
inductive Event where
  /-- The dispatcher called `forwardRequest` on this request. -/
  | forward (req : ProxyRequest)
  /-- The forwarder handed this request to `client.Do`. -/
  | call (httpReq : HttpRequest)
  /-- The frame was passed to `conn.WriteJSON`, which returned this error, if any. -/
  | write (resp : ProxyResponse) (err : Option String)
  /-- The keepalive goroutine passed `{"type": "heartbeat"}` to `conn.WriteJSON`. -/
  | heartbeat (err : Option String)

/-- The function `sendError`: the frame with only `ID` and `Error` set is written and the
result of the write is dropped (`_ = conn.WriteJSON(resp)`); nothing is returned. -/
def sendError (writeErr : Option String) (id message : String) : List Event :=
  [.write { ID := id, Status := 0, Headers := none, Body := "", Error := message } writeErr]

/-- One round of the read loop of `run` after a successful read (lines 94-108): what it
does, and `some err` when it makes `run` return `err`, `none` when the loop goes on. -/
structure Round where
  events : List Event
  ret : Option String

/-- Lines 94-108 of `run` for the message read in round `round`, whose write has the
outcome `writeErr`. -/
def dispatch (env : Env) (port : Int) (round : Nat) (writeErr : Option String)
    (message : String) : Round :=
  let req := (env.Unmarshal message).1
  if (env.Unmarshal message).2.isSome || req.ID = "" then
    { events := sendError writeErr req.ID "Invalid request", ret := none }
  else
    match (forwardRequest env round req port).result with
    | .error err =>
      { events := .forward req :: (forwardRequest env round req port).calls.map .call
          ++ sendError writeErr req.ID (err.Error env.quote),
        ret := none }
    | .ok resp =>
      { events := .forward req :: (forwardRequest env round req port).calls.map .call
          ++ [.write resp writeErr],
        ret := writeErr }

/-- What a session did and the error `run` returned. -/
structure Session where
  events : List Event
  err : String

/-- The read loop of `run` (lines 88-109) from round `round` on, with the messages still to
be read. -/
def readLoop (env : Env) (port : Int) (readErr : String) (writeErr : Nat → Option String) :
    Nat → List String → Session
  | _, [] => { events := [], err := readErr }
  | round, message :: rest =>
    match (dispatch env port round (writeErr round) message).ret with
    | some err => { events := (dispatch env port round (writeErr round) message).events,
                    err := err }
    | none =>
      { events := (dispatch env port round (writeErr round) message).events
          ++ (readLoop env port readErr writeErr (round + 1) rest).events,
        err := (readLoop env port readErr writeErr (round + 1) rest).err }

/-- Lines 66-70 of `run`: the query of the base address with `key` set, and `version` set
when one is configured. -/
def connectionQuery (wsURL : URL) (key version : String) : Values :=
  let q := wsURL.Query
  let q1 := q.Set (utf8 "key".toList) (utf8 key.toList)
  if version ≠ "" then q1.Set (utf8 "version".toList) (utf8 version.toList) else q1

/-- Lines 56-71 of `run`: the URL whose text is dialled. -/
def connectionURL (server key version : String) : Except ParseFailure URL :=
  match Parse server with
  | .error err => .error err
  | .ok wsURL =>
    let wsURL1 : URL :=
      if wsURL.Scheme = "https" then { wsURL with Scheme := "wss" }
      else { wsURL with Scheme := "ws" }
    let wsURL2 : URL := { wsURL1 with Path := "/ws" }
    .ok { wsURL2 with RawQuery := (connectionQuery wsURL2 key version).Encode }

/-- The function `run`, up to the point where it returns; line 73 dials the text
`wsURL.String()`. -/
def run (env : Env) (server key : String) (port : Int) (version : String) : Session :=
  match connectionURL server key version with
  | .error err => { events := [], err := err.Error env.quote }
  | .ok wsURL =>
    match env.Dial wsURL.String with
    | .error err => { events := [], err := err }
    | .ok conn => readLoop env port conn.readErr conn.writeErr 0 conn.reads

/-- The keepalive goroutine of `run` (lines 82-86) over `ticks` ticks of the ticker, the
first of them numbered `tick`; `writeErr` gives the error of the write of each tick, if it
fails. The result of the write is dropped (`_ = conn.WriteJSON(...)`) and the loop goes
on to the next tick. -/
def heartbeatLoop (writeErr : Nat → Option String) : Nat → Nat → List Event
  | _, 0 => []
  | tick, ticks + 1 => .heartbeat (writeErr tick) :: heartbeatLoop writeErr (tick + 1) ticks

/-! ## Example worlds

Concrete requests and environments on which the theorems below are instantiated. -/

/-- The frame `{id: "1", method: "GET", path: "/status", headers: {}, body: ""}`. -/
def statusRequest : ProxyRequest :=
  { ID := "1", Method := "GET", Path := "/status", Headers := [], Body := "" }

/-- The eleven bytes of the JSON text of an object with the member `ok` set to `true`. -/
def okBody : List Byte := [123, 34, 111, 107, 34, 58, 116, 114, 117, 101, 125]

/-- The header map with `Content-Type: application/json` only. -/
def jsonHeader : Header := Function.update Header.empty "Content-Type" (some ["application/json"])

/-- A quoting function: the text between double quotes. -/
def plainQuote (s : String) : String := String.mk (Char.ofNat 34 :: s.toList ++ [Char.ofNat 34])

/-- A frame whose body `!!` is not base64. -/
def badBodyRequest : ProxyRequest :=
  { ID := "2", Method := "POST", Path := "/upload", Headers := [], Body := "!!" }

/-- A world in which the message `status` decodes to `statusRequest`, the message
`bad-body` to `badBodyRequest`, no other message decodes, and the local service answers
every request with `200`, `jsonHeader` and `okBody`. -/
def servedEnv : Env :=
  { quote := plainQuote
    Unmarshal := fun message =>
      if message = "status" then (statusRequest, none)
      else if message = "bad-body" then (badBodyRequest, none)
      else (ProxyRequest.zero, some "invalid character in literal")
    Do := fun _ _ => .ok { StatusCode := 200, Header := jsonHeader, Body := .ok okBody }
    Dial := fun _ => .error "dial failed" }

/-- The error of an exchange with a port on which nothing listens. -/
def refusedError : TransportError :=
  { Op := "Get"
    URL := "http://127.0.0.1:8080/status"
    Err := "dial tcp 127.0.0.1:8080: connect: connection refused" }

/-- The same world with nothing listening on the local port: every exchange is refused. -/
def refusedEnv : Env :=
  { servedEnv with Do := fun _ _ => .error refusedError }

/-- A frame that names the `Host` header twice, once as a string and once as a list. -/
def hostRequest : ProxyRequest :=
  { ID := "7", Method := "GET", Path := "/",
    Headers := [("Host", .str "public.example"), ("hOsT", .arr [.str "other.example"])],
    Body := "" }

/-- The request that `forwardRequest` builds from `hostRequest` for port 8080. -/
def hostRequestBuilt : HttpRequest :=
  { Method := "GET",
    URL := { URL.zero with Scheme := "http", Host := "127.0.0.1:8080", Path := "/" },
    Header := applyHeaders Header.empty hostRequest.Headers,
    Host := "127.0.0.1",
    Body := [] }

/-- The request that `forwardRequest` builds from `statusRequest` for port 8080. -/
def statusRequestBuilt : HttpRequest :=
  { Method := "GET",
    URL := { URL.zero with Scheme := "http", Host := "127.0.0.1:8080", Path := "/status" },
    Header := Header.empty,
    Host := "127.0.0.1",
    Body := [] }

/-! ## Vocabulary of the statements -/

/-- The occurrences of the header named `key` that a request carries, in order. -/
def HttpRequest.occurrences (r : HttpRequest) (key : String) : List String :=
  (r.Header (CanonicalMIMEHeaderKey key)).getD []

/-- The string elements of a decoded JSON array, in order. -/
def stringItems (items : List JsonItem) : List String :=
  items.filterMap fun item =>
    match item with
    | .str s => some s
    | .other => none

/-- The occurrences that an entry of a frame's header map stands for: one for a string,
one per string element for a list, none for anything else. -/
def JsonValue.occurrences : JsonValue → List String
  | .str s => [s]
  | .arr items => stringItems items
  | .other => []

/-- The request carries, for every entry of the header map, exactly the occurrences the
entry stands for. -/
def HeadersCarried (r : HttpRequest) (headers : List (String × JsonValue)) : Prop :=
  ∀ kv ∈ headers, r.occurrences kv.1 = kv.2.occurrences

instance instDecidableHeadersCarried (r : HttpRequest) (headers : List (String × JsonValue)) :
    Decidable (HeadersCarried r headers) := by
  unfold HeadersCarried
  infer_instance

/-- A frame whose header map has two names for one header, the string visited first. -/
def stringFirstRequest : ProxyRequest :=
  { ID := "4", Method := "GET", Path := "/",
    Headers := [("x-a", .str "1"), ("X-A", .arr [.str "2", .str "3"])], Body := "" }

/-- The same frame with the list visited first. -/
def listFirstRequest : ProxyRequest :=
  { stringFirstRequest with Headers := [("X-A", .arr [.str "2", .str "3"]), ("x-a", .str "1")] }

/-- The request built from a frame of the shape of `stringFirstRequest`, for port 8080. -/
def builtFrom (req : ProxyRequest) : HttpRequest :=
  { Method := "GET",
    URL := { URL.zero with Scheme := "http", Host := "127.0.0.1:8080", Path := "/" },
    Header := applyHeaders Header.empty req.Headers,
    Host := "127.0.0.1",
    Body := [] }

/-- A frame whose header names denote three different headers. -/
def mixedRequest : ProxyRequest :=
  { ID := "5", Method := "GET", Path := "/",
    Headers := [("accept", .str "text/html"),
                ("X-Tag", .arr [.str "a", .other, .str "b"]),
                ("x-count", .other)],
    Body := "" }

/-- The URL of lines 60-71 of `run` for a parsed base address: the scheme `wss` for `https`
and `ws` for anything else, the path `/ws`, and the encoding of `connectionQuery`. -/
def upgraded (base : URL) (key version : String) : URL :=
  { base with Scheme := if base.Scheme = "https" then "wss" else "ws",
              Path := "/ws",
              RawQuery := (connectionQuery base key version).Encode }

/-- The authority of a base address as the dialled text has it: nothing when the host is
to be omitted and there is neither host nor userinfo, and otherwise `//`, the userinfo
with `@` when there is one, and the host. -/
def authorityOf (base : URL) : List Char :=
  if base.OmitHost && base.Host = "" && base.User.isNone then []
  else
    '/' :: '/' ::
      ((match base.User with
        | some userinfo => userinfoString userinfo.toList ++ ['@']
        | none => [])
      ++ (if base.Host ≠ "" then escape .encodeHost (unescape base.Host.toList) else []))

/-- The fragment of a base address as the dialled text has it: `#` and the fragment, or
nothing. -/
def fragmentOf (base : URL) : List Char :=
  if base.Fragment ≠ "" then '#' :: base.EscapedFragment else []

/-- The base address `https://relay.example`, parsed. -/
def relayBase : URL := { URL.zero with Scheme := "https", Host := "relay.example" }

/-- The base address `http://localhost:3000/?version=9`, parsed. -/
def versionedBase : URL :=
  { URL.zero with Scheme := "http", Host := "localhost:3000", Path := "/",
                  RawQuery := "version=9" }

/-- The base address `localhost:3000`, parsed: `localhost` is taken for the scheme and
`3000` for an opaque part. -/
def opaqueBase : URL := { URL.zero with Scheme := "localhost", Opaque := "3000" }

/-- The base address `wss://relay.example`, parsed. -/
def secureBase : URL := { URL.zero with Scheme := "wss", Host := "relay.example" }

/-- The frame that answers `statusRequest` in `servedEnv`. -/
def statusResponse : ProxyResponse :=
  { ID := "1", Status := 200, Headers := some jsonHeader, Body := "eyJvayI6dHJ1ZX0=",
    Error := "" }

/-- The frame that answers a message that does not decode. -/
def invalidResponse : ProxyResponse :=
  { ID := "", Status := 0, Headers := none, Body := "", Error := "Invalid request" }

/-- The frame that answers `statusRequest` in `refusedEnv`. -/
def refusedResponse : ProxyResponse :=
  { ID := "1", Status := 0, Headers := none, Body := "",
    Error := (ForwardError.transport refusedError).Error plainQuote }

/-- A connection whose write side is broken from the start: every write fails with the
same error (`gorilla/websocket` keeps the first write error of a connection and returns it
from every later write). -/
def brokenWrites (_ : Nat) : Option String := some "broken pipe"

/-- The path is empty or begins with `/`, `?` or `#`: it does not continue the authority
`127.0.0.1:<port>` of the target. -/
def endsAuthority (path : String) : Prop :=
  path.toList = [] ∨ path.toList.head? = some '/' ∨ path.toList.head? = some '?'
    ∨ path.toList.head? = some '#'

instance instDecidableEndsAuthority (path : String) : Decidable (endsAuthority path) := by
  unfold endsAuthority
  infer_instance

/-- A frame whose path begins with digits. -/
def digitsPathRequest : ProxyRequest :=
  { ID := "8", Method := "GET", Path := "80/x", Headers := [], Body := "" }

/-- A frame whose path begins with `@`. -/
def atPathRequest : ProxyRequest :=
  { ID := "9", Method := "GET", Path := "@example.com/", Headers := [], Body := "" }

/-- The request built from `digitsPathRequest` for port 80. -/
def digitsPathBuilt : HttpRequest :=
  { Method := "GET",
    URL := { URL.zero with Scheme := "http", Host := "127.0.0.1:8080", Path := "/x" },
    Header := Header.empty,
    Host := "127.0.0.1",
    Body := [] }

/-- The request built from `atPathRequest` for port 80. -/
def atPathBuilt : HttpRequest :=
  { Method := "GET",
    URL := { URL.zero with Scheme := "http", User := some "127.0.0.1:80",
                           Host := "example.com", Path := "/" },
    Header := Header.empty,
    Host := "127.0.0.1",
    Body := [] }

/-! ### Base64 lemmas -/

theorem decodeMap_encodeChar (n : Nat) (h : n < 64) : decodeMap (encodeChar n) = some n := by
  have key : ∀ m : Fin 64, decodeMap (encodeChar m.val) = some m.val := by decide
  exact key ⟨n, h⟩

theorem decodeLoop_sextet (c : Char) (rest : List Char) (si : Nat) (dbuf : List Nat) (out : Nat)
    (h : decodeMap c = some out) (hlen : dbuf.length < 3) :
    decodeLoop (c :: rest) si dbuf = decodeLoop rest (si + 1) (dbuf ++ [out]) := by
  rw [decodeLoop, h]
  match dbuf, hlen with
  | [], _ => rfl
  | [_], _ => rfl
  | [_, _], _ => rfl

theorem decodeLoop_fourth (c : Char) (rest : List Char) (si : Nat) (d0 d1 d2 out : Nat)
    (h : decodeMap c = some out) (tail : List Byte)
    (ht : decodeLoop rest (si + 1) [] = .ok tail) :
    decodeLoop (c :: rest) si [d0, d1, d2] =
      .ok ((quantumBytes d0 d1 d2 out).1 :: (quantumBytes d0 d1 d2 out).2.1 ::
            (quantumBytes d0 d1 d2 out).2.2 :: tail) := by
  rw [decodeLoop, h]
  simp only [ht]

theorem decodeLoop_pad (rest : List Char) (si : Nat) (dbuf : List Nat) :
    decodeLoop ('=' :: rest) si dbuf = decodePadding rest (si + 1) dbuf := by
  have h : decodeMap '=' = none := by decide
  rw [decodeLoop, h]
  simp

theorem quantumBytes_full (b0 b1 b2 : Byte) :
    quantumBytes ((b0.val * 2 ^ 16 + b1.val * 2 ^ 8 + b2.val) / 2 ^ 18 % 64)
      ((b0.val * 2 ^ 16 + b1.val * 2 ^ 8 + b2.val) / 2 ^ 12 % 64)
      ((b0.val * 2 ^ 16 + b1.val * 2 ^ 8 + b2.val) / 2 ^ 6 % 64)
      ((b0.val * 2 ^ 16 + b1.val * 2 ^ 8 + b2.val) % 64) = (b0, b1, b2) := by
  have h0 := b0.isLt
  have h1 := b1.isLt
  have h2 := b2.isLt
  simp only [quantumBytes, Prod.mk.injEq]
  refine ⟨?_, ?_, ?_⟩ <;> apply Fin.ext <;> simp only [Fin.ofNat, Fin.val_mk] <;> omega

theorem quantumBytes_two (b0 b1 : Byte) :
    (quantumBytes ((b0.val * 2 ^ 16 + b1.val * 2 ^ 8) / 2 ^ 18 % 64)
      ((b0.val * 2 ^ 16 + b1.val * 2 ^ 8) / 2 ^ 12 % 64)
      ((b0.val * 2 ^ 16 + b1.val * 2 ^ 8) / 2 ^ 6 % 64) 0).1 = b0 ∧
    (quantumBytes ((b0.val * 2 ^ 16 + b1.val * 2 ^ 8) / 2 ^ 18 % 64)
      ((b0.val * 2 ^ 16 + b1.val * 2 ^ 8) / 2 ^ 12 % 64)
      ((b0.val * 2 ^ 16 + b1.val * 2 ^ 8) / 2 ^ 6 % 64) 0).2.1 = b1 := by
  have h0 := b0.isLt
  have h1 := b1.isLt
  simp only [quantumBytes]
  refine ⟨?_, ?_⟩ <;> apply Fin.ext <;> simp only [Fin.ofNat, Fin.val_mk] <;> omega

theorem quantumBytes_one (b0 : Byte) :
    (quantumBytes ((b0.val * 2 ^ 16) / 2 ^ 18 % 64) ((b0.val * 2 ^ 16) / 2 ^ 12 % 64) 0 0).1
      = b0 := by
  have h0 := b0.isLt
  simp only [quantumBytes]
  apply Fin.ext
  simp only [Fin.ofNat, Fin.val_mk]
  omega

theorem skipNewlines_pad (rest : List Char) (si : Nat) :
    skipNewlines ('=' :: rest) si = ('=' :: rest, si) := by
  have h : ¬ ('=' = '\n' ∨ '=' = '\r') := by decide
  rw [skipNewlines, if_neg h]

theorem decodeLoop_encodeBytes (src : List Byte) (si : Nat) :
    decodeLoop (encodeBytes src) si [] = .ok src := by
  induction src using encodeBytes.induct generalizing si with
  | case1 b0 b1 b2 rest ih =>
    have hm : ∀ k, k % 64 < 64 := fun k => Nat.mod_lt _ (by decide)
    rw [encodeBytes]
    rw [decodeLoop_sextet _ _ _ _ _ (decodeMap_encodeChar _ (hm _)) (by simp)]
    rw [decodeLoop_sextet _ _ _ _ _ (decodeMap_encodeChar _ (hm _)) (by simp)]
    rw [decodeLoop_sextet _ _ _ _ _ (decodeMap_encodeChar _ (hm _)) (by simp)]
    simp only [List.nil_append, List.singleton_append, List.cons_append]
    rw [decodeLoop_fourth _ _ _ _ _ _ _ (decodeMap_encodeChar _ (hm _)) rest (ih _)]
    rw [quantumBytes_full]
  | case2 b0 b1 =>
    have hm : ∀ k, k % 64 < 64 := fun k => Nat.mod_lt _ (by decide)
    rw [encodeBytes]
    rw [decodeLoop_sextet _ _ _ _ _ (decodeMap_encodeChar _ (hm _)) (by simp)]
    rw [decodeLoop_sextet _ _ _ _ _ (decodeMap_encodeChar _ (hm _)) (by simp)]
    rw [decodeLoop_sextet _ _ _ _ _ (decodeMap_encodeChar _ (hm _)) (by simp)]
    simp only [List.nil_append, List.singleton_append, List.cons_append]
    rw [decodeLoop_pad]
    simp only [decodePadding, skipNewlines]
    rw [(quantumBytes_two b0 b1).1, (quantumBytes_two b0 b1).2]
  | case3 b0 =>
    have hm : ∀ k, k % 64 < 64 := fun k => Nat.mod_lt _ (by decide)
    rw [encodeBytes]
    rw [decodeLoop_sextet _ _ _ _ _ (decodeMap_encodeChar _ (hm _)) (by simp)]
    rw [decodeLoop_sextet _ _ _ _ _ (decodeMap_encodeChar _ (hm _)) (by simp)]
    simp only [List.nil_append, List.singleton_append, List.cons_append]
    rw [decodeLoop_pad]
    simp only [decodePadding, skipNewlines_pad]
    simp only [skipNewlines, ne_eq, not_true_eq_false, ↓reduceIte]
    rw [quantumBytes_one b0]
  | case4 => rfl


/-! ## Body round trip -/

/-- C7. Body round trip: for every byte sequence `b`, the body-decode step of
`forwardRequest` applied to the standard base64 encoding of `b` succeeds and yields exactly
`b`; and an empty body field decodes to zero bytes, not to an error. -/
theorem decodeBody_EncodeToString (b : List Byte) :
    decodeBody (EncodeToString b) = .ok b ∧ decodeBody "" = .ok [] := by
  refine ⟨?_, rfl⟩
  have h := decodeLoop_encodeBytes b 0
  unfold decodeBody DecodeString EncodeToString
  by_cases hb : encodeBytes b = []
  · rw [hb] at h
    have hnil : b = [] := by
      have h2 : decodeLoop [] 0 [] = .ok [] := rfl
      rw [h2] at h
      exact (Except.ok.inj h).symm
    subst hnil
    rfl
  · have hne : String.mk (encodeBytes b) ≠ "" := by
      intro hs
      apply hb
      have := congrArg String.toList hs
      simpa using this
    rw [if_pos hne]
    exact h

/-! ## The dispatcher and the forwarder -/

theorem dispatch_invalid (env : Env) (port : Int) (round : Nat) (writeErr : Option String)
    (message : String)
    (h : (env.Unmarshal message).2.isSome = true ∨ (env.Unmarshal message).1.ID = "") :
    dispatch env port round writeErr message =
      { events := sendError writeErr (env.Unmarshal message).1.ID "Invalid request",
        ret := none } := by
  unfold dispatch
  have hc : ((env.Unmarshal message).2.isSome || decide ((env.Unmarshal message).1.ID = ""))
      = true := by
    rcases h with h | h
    · simp [h]
    · simp [h]
  simp only [hc, if_true]

theorem dispatch_valid (env : Env) (port : Int) (round : Nat) (writeErr : Option String)
    (message : String)
    (hdec : (env.Unmarshal message).2 = none) (hid : (env.Unmarshal message).1.ID ≠ "") :
    dispatch env port round writeErr message =
      match (forwardRequest env round (env.Unmarshal message).1 port).result with
      | .error err =>
        { events := .forward (env.Unmarshal message).1
            :: (forwardRequest env round (env.Unmarshal message).1 port).calls.map .call
            ++ sendError writeErr (env.Unmarshal message).1.ID (err.Error env.quote),
          ret := none }
      | .ok resp =>
        { events := .forward (env.Unmarshal message).1
            :: (forwardRequest env round (env.Unmarshal message).1 port).calls.map .call
            ++ [.write resp writeErr],
          ret := writeErr } := by
  unfold dispatch
  have hc : ((env.Unmarshal message).2.isSome || decide ((env.Unmarshal message).1.ID = ""))
      = false := by
    simp [hdec, hid]
  simp only [hc, Bool.false_eq_true, if_false]

theorem readLoop_continue (env : Env) (port : Int) (readErr : String)
    (writeErr : Nat → Option String) (round : Nat) (message : String) (rest : List String)
    (h : (dispatch env port round (writeErr round) message).ret = none) :
    readLoop env port readErr writeErr round (message :: rest) =
      { events := (dispatch env port round (writeErr round) message).events
          ++ (readLoop env port readErr writeErr (round + 1) rest).events,
        err := (readLoop env port readErr writeErr (round + 1) rest).err } := by
  rw [readLoop]
  simp only [h]

theorem readLoop_return (env : Env) (port : Int) (readErr : String)
    (writeErr : Nat → Option String) (round : Nat) (message : String) (rest : List String)
    (err : String) (h : (dispatch env port round (writeErr round) message).ret = some err) :
    readLoop env port readErr writeErr round (message :: rest) =
      { events := (dispatch env port round (writeErr round) message).events, err := err } := by
  rw [readLoop]
  simp only [h]

theorem forwardRequest_success (env : Env) (round : Nat) (req : ProxyRequest) (port : Int)
    (httpReq : HttpRequest) (res : HttpResponse) (responseBody : List Byte)
    (hbuild : buildRequest req port = .ok httpReq) (hdo : env.Do round httpReq = .ok res)
    (hread : res.Body = .ok responseBody) :
    forwardRequest env round req port =
      { calls := [httpReq],
        result := .ok { ID := req.ID, Status := res.StatusCode, Headers := some res.Header,
                        Body := EncodeToString responseBody, Error := "" } } := by
  unfold forwardRequest
  simp only [hbuild, hdo, hread]

/-- C1. For a decoded frame with a non-empty identifier whose request can be built (the
body is empty or valid base64, the method and target are accepted), whenever the local
HTTP exchange completes and the response body is read, `forwardRequest` returns the frame
with the request's identifier, the response's status code, the response's header map, the
base64 encoding of the response bytes and no error; and the dispatcher calls the forwarder
once, which hands the one request to the HTTP client, and writes that very frame. -/
theorem forward_success_frame (env : Env) (port : Int) (round : Nat)
    (writeErr : Option String) (message : String) (req : ProxyRequest)
    (httpReq : HttpRequest) (res : HttpResponse) (responseBody : List Byte)
    (hdecode : env.Unmarshal message = (req, none)) (hid : req.ID ≠ "")
    (hbuild : buildRequest req port = .ok httpReq) (hdo : env.Do round httpReq = .ok res)
    (hread : res.Body = .ok responseBody) :
    (forwardRequest env round req port).result =
        .ok { ID := req.ID, Status := res.StatusCode, Headers := some res.Header,
              Body := EncodeToString responseBody, Error := "" } ∧
      (dispatch env port round writeErr message).events =
        [.forward req, .call httpReq,
          .write { ID := req.ID, Status := res.StatusCode, Headers := some res.Header,
                   Body := EncodeToString responseBody, Error := "" } writeErr] := by
  have hf := forwardRequest_success env round req port httpReq res responseBody hbuild hdo hread
  have hd := dispatch_valid env port round writeErr message (by rw [hdecode]) (by rw [hdecode]; exact hid)
  rw [hdecode] at hd
  simp only [hf] at hd
  refine ⟨by rw [hf], ?_⟩
  rw [hd]
  rfl

/-- The scenario of C1: the frame `statusRequest` against a service answering `200` with
`Content-Type: application/json` and the JSON body. -/
theorem forward_success_frame_witness :
    servedEnv.Unmarshal "status" = (statusRequest, none) ∧ statusRequest.ID ≠ "" ∧
      buildRequest statusRequest 8080 = .ok statusRequestBuilt ∧
      (forwardRequest servedEnv 0 statusRequest 8080).result =
        .ok { ID := "1", Status := 200, Headers := some jsonHeader,
              Body := "eyJvayI6dHJ1ZX0=", Error := "" } ∧
      (dispatch servedEnv 8080 0 none "status").events =
        [.forward statusRequest, .call statusRequestBuilt,
          .write { ID := "1", Status := 200, Headers := some jsonHeader,
                   Body := "eyJvayI6dHJ1ZX0=", Error := "" } none] :=
  ⟨rfl, by decide, rfl,
    (forward_success_frame servedEnv 8080 0 none "status" statusRequest statusRequestBuilt
      { StatusCode := 200, Header := jsonHeader, Body := .ok okBody } okBody
      rfl (by decide) rfl rfl rfl).1,
    (forward_success_frame servedEnv 8080 0 none "status" statusRequest statusRequestBuilt
      { StatusCode := 200, Header := jsonHeader, Body := .ok okBody } okBody
      rfl (by decide) rfl rfl rfl).2⟩

/-- C2. For every inbound message that fails to decode, or whose decoded identifier is
empty, the round consists of exactly one write, of the frame whose error is
`Invalid request`, whose identifier is what the decode left in the request and whose
status, headers and body are unset: the forwarder is not called and no HTTP request is
made; and the read loop goes on with the next message, whatever the write returned. -/
theorem invalid_request_round (env : Env) (port : Int) (readErr : String)
    (writeErr : Nat → Option String) (round : Nat) (message : String) (rest : List String)
    (h : (env.Unmarshal message).2.isSome = true ∨ (env.Unmarshal message).1.ID = "") :
    dispatch env port round (writeErr round) message =
        { events := [.write { ID := (env.Unmarshal message).1.ID, Status := 0,
                              Headers := none, Body := "", Error := "Invalid request" }
                       (writeErr round)],
          ret := none } ∧
      readLoop env port readErr writeErr round (message :: rest) =
        { events := .write { ID := (env.Unmarshal message).1.ID, Status := 0,
                             Headers := none, Body := "", Error := "Invalid request" }
                      (writeErr round)
                    :: (readLoop env port readErr writeErr (round + 1) rest).events,
          err := (readLoop env port readErr writeErr (round + 1) rest).err } := by
  have hd := dispatch_invalid env port round (writeErr round) message h
  refine ⟨by rw [hd]; rfl, ?_⟩
  rw [readLoop_continue env port readErr writeErr round message rest (by rw [hd])]
  rw [hd]
  rfl

/-- The scenario of C2: the message `not-json`, which does not decode and leaves the request
at its zero value, is answered with the identifier empty. -/
theorem invalid_request_round_witness :
    (servedEnv.Unmarshal "not-json").2.isSome = true ∧
      dispatch servedEnv 8080 0 none "not-json" =
        { events := [.write { ID := "", Status := 0, Headers := none, Body := "",
                              Error := "Invalid request" } none],
          ret := none } :=
  ⟨rfl, (invalid_request_round servedEnv 8080 "EOF" (fun _ => none) 0 "not-json" []
    (Or.inl rfl)).1⟩

/-- C5. Whatever the frame and its header map contain, the request that `forwardRequest`
builds has the Host `127.0.0.1`, and that request is the one, and the only one, handed to
the HTTP client. -/
theorem buildRequest_Host (req : ProxyRequest) (port : Int) (httpReq : HttpRequest)
    (hbuild : buildRequest req port = .ok httpReq) :
    httpReq.Host = "127.0.0.1" ∧
      ∀ (env : Env) (round : Nat), (forwardRequest env round req port).calls = [httpReq] := by
  constructor
  · unfold buildRequest at hbuild
    split at hbuild
    · cases hbuild
    · split at hbuild
      · cases hbuild
      · cases hbuild
        rfl
  · intro env round
    unfold forwardRequest
    simp only [hbuild]
    split
    · rfl
    · split <;> rfl

/-- A frame with a `Host` entry as a string and another, in another letter case, as a list:
the request built from it has the Host `127.0.0.1`. -/
theorem buildRequest_Host_witness :
    buildRequest hostRequest 8080 = .ok hostRequestBuilt ∧
      hostRequestBuilt.Host = "127.0.0.1" ∧
      hostRequestBuilt.Header "Host" = some ["public.example", "other.example"] :=
  ⟨rfl, (buildRequest_Host hostRequest 8080 hostRequestBuilt rfl).1, by decide⟩

/-! ## Headers -/

/-- Inversion of `buildRequest`: what a built request is made of. -/
theorem buildRequest_ok (req : ProxyRequest) (port : Int) (httpReq : HttpRequest)
    (hbuild : buildRequest req port = .ok httpReq) :
    ∃ bodyBytes u, decodeBody req.Body = .ok bodyBytes ∧
      validMethod (if req.Method = "" then "GET" else req.Method) = true ∧
      Parse (target port req.Path) = .ok u ∧
      httpReq = { Method := if req.Method = "" then "GET" else req.Method,
                  URL := { u with Host := removeEmptyPort u.Host },
                  Header := applyHeaders Header.empty req.Headers,
                  Host := "127.0.0.1",
                  Body := bodyBytes } := by
  unfold buildRequest at hbuild
  split at hbuild
  · cases hbuild
  · rename_i bodyBytes hbody
    unfold NewRequestWithContext at hbuild
    by_cases hm : validMethod (if req.Method = "" then "GET" else req.Method) = true
    · simp only [hm, Bool.not_true, Bool.false_eq_true, if_false] at hbuild
      cases hp : Parse (target port req.Path) with
      | error e =>
        rw [hp] at hbuild
        cases hbuild
      | ok u =>
        rw [hp] at hbuild
        refine ⟨bodyBytes, u, hbody, hm, rfl, ?_⟩
        exact (Except.ok.inj hbuild).symm
    · have hm2 : validMethod (if req.Method = "" then "GET" else req.Method) = false := by
        simpa using hm
      simp only [hm2, Bool.not_false, if_true] at hbuild
      cases hbuild

theorem Header.Add_other (h : Header) (key value K : String)
    (hK : K ≠ CanonicalMIMEHeaderKey key) : h.Add key value K = h K := by
  unfold Header.Add
  exact Function.update_noteq hK _ _

theorem Header.Add_same (h : Header) (key value : String) :
    h.Add key value (CanonicalMIMEHeaderKey key) =
      some ((h (CanonicalMIMEHeaderKey key)).getD [] ++ [value]) := by
  unfold Header.Add
  exact Function.update_same _ _ _

theorem foldl_Add_other (key K : String) (hK : K ≠ CanonicalMIMEHeaderKey key)
    (items : List JsonItem) (h : Header) :
    (items.foldl (fun acc item =>
      match item with
      | .str str => acc.Add key str
      | .other => acc) h) K = h K := by
  induction items generalizing h with
  | nil => rfl
  | cons item items ih =>
    rw [List.foldl_cons, ih]
    cases item with
    | str s => exact Header.Add_other h key s K hK
    | other => rfl

theorem foldl_Add_same (key : String) (items : List JsonItem) (h : Header) :
    ((items.foldl (fun acc item =>
      match item with
      | .str str => acc.Add key str
      | .other => acc) h) (CanonicalMIMEHeaderKey key)).getD [] =
      (h (CanonicalMIMEHeaderKey key)).getD [] ++ stringItems items := by
  induction items generalizing h with
  | nil => simp [stringItems]
  | cons item items ih =>
    rw [List.foldl_cons, ih]
    cases item with
    | str s =>
      simp only [Header.Add_same, Option.getD_some, stringItems, List.filterMap_cons,
        List.append_assoc, List.singleton_append]
    | other =>
      simp only [stringItems, List.filterMap_cons]

theorem applyHeader_other (h : Header) (key : String) (value : JsonValue) (K : String)
    (hK : K ≠ CanonicalMIMEHeaderKey key) : applyHeader h key value K = h K := by
  cases value with
  | str s =>
    show Function.update h (CanonicalMIMEHeaderKey key) (some [s]) K = h K
    exact Function.update_noteq hK _ _
  | arr items => exact foldl_Add_other key K hK items h
  | other => rfl

theorem applyHeader_same (h : Header) (key : String) (value : JsonValue)
    (hfresh : h (CanonicalMIMEHeaderKey key) = none) :
    (applyHeader h key value (CanonicalMIMEHeaderKey key)).getD [] = value.occurrences := by
  cases value with
  | str s =>
    show (Function.update h (CanonicalMIMEHeaderKey key) (some [s])
      (CanonicalMIMEHeaderKey key)).getD [] = [s]
    rw [Function.update_same]
    rfl
  | arr items =>
    show ((items.foldl _ h) (CanonicalMIMEHeaderKey key)).getD [] = stringItems items
    rw [foldl_Add_same, hfresh]
    rfl
  | other =>
    show (h (CanonicalMIMEHeaderKey key)).getD [] = []
    rw [hfresh]
    rfl

theorem applyHeaders_other (headers : List (String × JsonValue)) (h : Header) (K : String)
    (hK : ∀ kv ∈ headers, K ≠ CanonicalMIMEHeaderKey kv.1) :
    applyHeaders h headers K = h K := by
  induction headers generalizing h with
  | nil => rfl
  | cons x xs ih =>
    unfold applyHeaders
    rw [List.foldl_cons]
    have := ih (applyHeader h x.1 x.2) (fun kv hkv => hK kv (List.mem_cons_of_mem _ hkv))
    unfold applyHeaders at this
    rw [this]
    exact applyHeader_other h x.1 x.2 K (hK x (List.mem_cons_self _ _))

theorem applyHeaders_carried (headers : List (String × JsonValue)) (h : Header)
    (hnodup : (headers.map fun kv => CanonicalMIMEHeaderKey kv.1).Nodup)
    (hfresh : ∀ kv ∈ headers, h (CanonicalMIMEHeaderKey kv.1) = none) :
    ∀ kv ∈ headers,
      (applyHeaders h headers (CanonicalMIMEHeaderKey kv.1)).getD [] = kv.2.occurrences := by
  induction headers generalizing h with
  | nil => intro kv hkv; cases hkv
  | cons x xs ih =>
    rw [List.map_cons, List.nodup_cons] at hnodup
    obtain ⟨hx, hxs⟩ := hnodup
    have hne : ∀ kv ∈ xs, CanonicalMIMEHeaderKey x.1 ≠ CanonicalMIMEHeaderKey kv.1 := by
      intro kv hkv heq
      apply hx
      rw [heq]
      exact List.mem_map_of_mem (fun kv => CanonicalMIMEHeaderKey kv.1) hkv
    have hstep : ∀ K, applyHeaders h (x :: xs) K = applyHeaders (applyHeader h x.1 x.2) xs K :=
      fun K => rfl
    intro kv hkv
    rw [hstep]
    rcases List.mem_cons.mp hkv with heq | hmem
    · subst heq
      rw [applyHeaders_other xs _ _ hne]
      exact applyHeader_same h kv.1 kv.2 (hfresh kv (List.mem_cons_self _ _))
    · apply ih (applyHeader h x.1 x.2) hxs _ kv hmem
      intro kv2 hkv2
      rw [applyHeader_other h x.1 x.2 _ (fun heq => hne kv2 hkv2 heq.symm)]
      exact hfresh kv2 (List.mem_cons_of_mem _ hkv2)

/-- C4, as the code has it. For every header map whose names denote pairwise different
HTTP headers (no two names with the same canonical form) and every name in it: a string
value gives exactly one occurrence of the header, with that value; a list gives one
occurrence per string element, in list order; non-string elements and values that are
neither a string nor a list give nothing and are no error. -/
theorem headers_carried (req : ProxyRequest) (port : Int) (httpReq : HttpRequest)
    (hbuild : buildRequest req port = .ok httpReq)
    (hnodup : (req.Headers.map fun kv => CanonicalMIMEHeaderKey kv.1).Nodup) :
    HeadersCarried httpReq req.Headers := by
  obtain ⟨bodyBytes, u, _, _, _, hreq⟩ := buildRequest_ok req port httpReq hbuild
  intro kv hkv
  subst hreq
  exact applyHeaders_carried req.Headers Header.empty hnodup (fun _ _ => rfl) kv hkv

/-- A header map with a string, a list holding a non-string element, and a number. -/
theorem headers_carried_witness :
    buildRequest mixedRequest 8080 = .ok (builtFrom mixedRequest) ∧
      (mixedRequest.Headers.map fun kv => CanonicalMIMEHeaderKey kv.1).Nodup ∧
      HeadersCarried (builtFrom mixedRequest) mixedRequest.Headers ∧
      (builtFrom mixedRequest).occurrences "accept" = ["text/html"] ∧
      (builtFrom mixedRequest).occurrences "X-Tag" = ["a", "b"] ∧
      (builtFrom mixedRequest).occurrences "x-count" = [] :=
  ⟨rfl, by decide,
    headers_carried mixedRequest 8080 (builtFrom mixedRequest) rfl (by decide),
    by decide, by decide, by decide⟩

/-- C4 fails as stated: a header map may hold two names of one header. With `x-a` a string
and `X-A` a list, the request carries three occurrences for the string when the string is
visited first, and the elements of the list are gone when the list is visited first: in
either visiting order the request does not carry what the entries stand for. -/
theorem headers_same_name_counterexample :
    (stringFirstRequest.Headers.map Prod.fst).Nodup ∧
    (buildRequest stringFirstRequest 8080 = .ok (builtFrom stringFirstRequest) ∧
      (builtFrom stringFirstRequest).occurrences "x-a" = ["1", "2", "3"] ∧
      ¬ HeadersCarried (builtFrom stringFirstRequest) stringFirstRequest.Headers) ∧
    (buildRequest listFirstRequest 8080 = .ok (builtFrom listFirstRequest) ∧
      (builtFrom listFirstRequest).occurrences "X-A" = ["1"] ∧
      ¬ HeadersCarried (builtFrom listFirstRequest) listFirstRequest.Headers) := by
  exact ⟨by decide, ⟨rfl, by decide, by decide⟩, ⟨rfl, by decide, by decide⟩⟩

/-! ## The connection URL -/

theorem Values.get_store_same (v : Values) (key : List Byte) (vs : List (List Byte)) :
    (v.store key vs).get key = some vs := by
  induction v with
  | nil => simp [Values.store, Values.get]
  | cons p rest ih =>
    obtain ⟨k0, v0⟩ := p
    by_cases hk : k0 = key
    · simp [Values.store, Values.get, hk]
    · simp [Values.store, Values.get, hk, ih]

theorem Values.get_store_other (v : Values) (key other : List Byte) (vs : List (List Byte))
    (hne : other ≠ key) : (v.store key vs).get other = v.get other := by
  induction v with
  | nil => simp [Values.store, Values.get, Ne.symm hne]
  | cons p rest ih =>
    obtain ⟨k0, v0⟩ := p
    by_cases hk : k0 = key
    · subst hk
      simp [Values.store, Values.get, Ne.symm hne]
    · by_cases ho : k0 = other
      · subst ho
        simp [Values.store, Values.get, hk]
      · simp [Values.store, Values.get, hk, ho, ih]

theorem Values.mem_of_get (v : Values) (key : List Byte) (vs : List (List Byte))
    (h : v.get key = some vs) : (key, vs) ∈ v := by
  induction v with
  | nil => cases h
  | cons p rest ih =>
    obtain ⟨k0, v0⟩ := p
    by_cases hk : k0 = key
    · simp only [Values.get, hk, if_true, Option.some.injEq] at h
      rw [hk, h]
      exact List.mem_cons_self _ _
    · simp only [Values.get, hk, if_false] at h
      exact List.mem_cons_of_mem _ (ih h)

theorem mem_insertByKey (p x : List Byte × List (List Byte)) (l : Values)
    (h : x = p ∨ x ∈ l) : x ∈ insertByKey p l := by
  induction l with
  | nil =>
    rcases h with h | h
    · rw [h]
      exact List.mem_cons_self _ _
    · cases h
  | cons q rest ih =>
    unfold insertByKey
    split
    · rcases h with h | h
      · rw [h]
        exact List.mem_cons_self _ _
      · exact List.mem_cons_of_mem _ h
    · rcases h with h | h
      · exact List.mem_cons_of_mem _ (ih (Or.inl h))
      · rcases List.mem_cons.mp h with h | h
        · rw [h]
          exact List.mem_cons_self _ _
        · exact List.mem_cons_of_mem _ (ih (Or.inr h))

theorem mem_sorted (v : Values) (x : List Byte × List (List Byte)) (h : x ∈ v) :
    x ∈ v.foldr insertByKey [] := by
  induction v with
  | nil => cases h
  | cons p rest ih =>
    rw [List.foldr_cons]
    rcases List.mem_cons.mp h with h | h
    · exact mem_insertByKey _ _ _ (Or.inl h)
    · exact mem_insertByKey _ _ _ (Or.inr (ih h))

theorem intercalate_ne_nil (sep : List Char) (l : List (List Char)) (hl : l ≠ [])
    (hne : ∀ x ∈ l, x ≠ []) : List.intercalate sep l ≠ [] := by
  cases l with
  | nil => exact absurd rfl hl
  | cons x xs =>
    have hx : x ≠ [] := hne x (List.mem_cons_self _ _)
    cases xs with
    | nil => simpa [List.intercalate, List.intersperse] using hx
    | cons y ys =>
      simp [List.intercalate, List.intersperse, hx]

/-- The encoding of a query that has a parameter with a value is not empty. -/
theorem Values.Encode_ne_empty (v : Values) (key value : List Byte)
    (h : v.get key = some [value]) : v.Encode ≠ "" := by
  have hmem := mem_sorted v _ (Values.mem_of_get v key [value] h)
  intro hempty
  have hdata := congrArg String.data hempty
  unfold Values.Encode at hdata
  simp only at hdata
  refine intercalate_ne_nil ['&'] _ ?_ ?_ hdata
  · intro hnil
    have : QueryEscape key ++ '=' :: QueryEscape value ∈
        (v.foldr insertByKey []).flatMap fun kv =>
          kv.2.map fun value => QueryEscape kv.1 ++ '=' :: QueryEscape value := by
      rw [List.mem_flatMap]
      exact ⟨(key, [value]), hmem, by simp⟩
    rw [hnil] at this
    cases this
  · intro x hx
    rw [List.mem_flatMap] at hx
    obtain ⟨kv, _, hx⟩ := hx
    rw [List.mem_map] at hx
    obtain ⟨val, _, hx⟩ := hx
    rw [← hx]
    simp

theorem dropWhile_head (l : List Char) :
    l.dropWhile (· != '/') = [] ∨ (l.dropWhile (· != '/')).head? = some '/' := by
  induction l with
  | nil => exact Or.inl rfl
  | cons c cs ih =>
    by_cases hc : c = '/'
    · subst hc
      exact Or.inr (by simp)
    · have hstep : (c :: cs).dropWhile (· != '/') = cs.dropWhile (· != '/') := by
        simp [List.dropWhile_cons, hc]
      rw [hstep]
      exact ih

theorem rawForm_head (mode : Encoding) (p : List Char)
    (hp : p = [] ∨ p.head? = some '/') :
    rawForm mode p = [] ∨ (rawForm mode p).head? = some '/' := by
  unfold rawForm
  split
  · exact Or.inl rfl
  · exact hp

theorem parseHier_RawPath (scheme rest : List Char) (url u : URL)
    (hhost0 : url.Host = "") (h : parseHier scheme rest url = .ok u) (hhost : u.Host ≠ "") :
    u.RawPath.toList = [] ∨ u.RawPath.toList.head? = some '/' := by
  unfold parseHier at h
  split at h
  · have := Except.ok.inj h
    subst this
    exact absurd hhost0 hhost
  · split at h
    · cases h
    · split at h
      · split at h
        · cases h
        · split at h
          · cases h
          · have := Except.ok.inj h
            subst this
            exact rawForm_head _ _ (dropWhile_head _)
      · split at h
        · cases h
        · have := Except.ok.inj h
          subst this
          exact absurd hhost0 hhost

/-- A parsed URL with a host has a raw path that is empty or begins with `/`. -/
theorem Parse_RawPath (server : String) (base : URL) (h : Parse server = .ok base)
    (hhost : base.Host ≠ "") :
    base.RawPath.toList = [] ∨ base.RawPath.toList.head? = some '/' := by
  have key : ∀ url, parse (cutBefore '#' server.toList) = .ok url → url.Host ≠ "" →
      url.RawPath.toList = [] ∨ url.RawPath.toList.head? = some '/' := by
    intro url hp hh
    unfold parse at hp
    split at hp
    · cases hp
    · split at hp
      · have := Except.ok.inj hp
        subst this
        exact absurd rfl hh
      · split at hp
        · cases hp
        · exact parseHier_RawPath _ _ _ url rfl hp hh
  unfold Parse at h
  split at h
  · cases h
  · rename_i url hp
    split at h
    · have := Except.ok.inj h
      subst this
      exact key _ hp hhost
    · split at h
      · cases h
      · have := Except.ok.inj h
        subst this
        exact key url hp hhost

theorem upgraded_Scheme_ne (base : URL) (key version : String) :
    (upgraded base key version).Scheme ≠ "" := by
  unfold upgraded
  by_cases hs : base.Scheme = "https"
  · simp only [hs, if_true]
    decide
  · simp only [hs, if_false]
    decide

theorem connectionQuery_key (base : URL) (key version : String) :
    (connectionQuery base key version).get (utf8 "key".toList) = some [utf8 key.toList] := by
  have hkv : utf8 "key".toList ≠ utf8 "version".toList := by decide
  unfold connectionQuery
  by_cases hv : version = ""
  · simp only [hv, ne_eq, not_true_eq_false, if_false]
    exact Values.get_store_same _ _ _
  · simp only [ne_eq, hv, not_false_eq_true, if_true]
    unfold Values.Set
    rw [Values.get_store_other _ _ _ _ hkv]
    exact Values.get_store_same _ _ _

theorem upgraded_EscapedPath (base : URL) (key version : String) :
    (upgraded base key version).EscapedPath =
      if base.RawPath ≠ "" && validEncoded base.RawPath.toList .encodePath
          && unescape base.RawPath.toList = utf8 "/ws".toList then base.RawPath.toList
      else "/ws".toList := by
  have h1 : unescape "/ws".toList = utf8 "/ws".toList := by decide
  have h2 : ¬ utf8 "/ws".toList = utf8 ['*'] := by decide
  have h3 : escape .encodePath (utf8 "/ws".toList) = "/ws".toList := by decide
  unfold URL.EscapedPath upgraded
  simp only [h1, h2, h3, if_false]

theorem String_toList_eq_nil (s : String) (h : s.toList = []) : s = "" :=
  String.ext h

/-- The text `URL.String` gives for the upgraded URL of a parsed base address without an
opaque part. -/
theorem upgraded_String (server key version : String) (base : URL)
    (hparse : Parse server = .ok base) (hplain : base.Opaque = "") :
    (upgraded base key version).String =
      String.mk ((if base.Scheme = "https" then "wss" else "ws").toList ++ ':' ::
        authorityOf base ++ (upgraded base key version).EscapedPath
        ++ '?' :: (connectionQuery base key version).Encode.toList ++ fragmentOf base) := by
  have hS := upgraded_Scheme_ne base key version
  have hQ : (connectionQuery base key version).Encode ≠ "" :=
    Values.Encode_ne_empty _ _ _ (connectionQuery_key base key version)
  have hslash : ((upgraded base key version).EscapedPath ≠ []
      && (upgraded base key version).EscapedPath.head? ≠ some '/'
      && (upgraded base key version).Host ≠ "") = false := by
    rw [upgraded_EscapedPath]
    split
    · rename_i hc
      simp only [Bool.and_eq_true, decide_eq_true_eq] at hc
      by_cases hh : base.Host = ""
      · have : (upgraded base key version).Host = "" := hh
        simp [this]
      · rcases Parse_RawPath server base hparse hh with h | h
        · exact absurd (String_toList_eq_nil _ h) hc.1.1
        · have hd : decide (base.RawPath.toList.head? ≠ some '/') = false := by
            rw [h]
            decide
          rw [hd, Bool.and_false, Bool.false_and]
    · simp
  have hauth : (upgraded base key version).authorityString = authorityOf base := by
    unfold URL.authorityString authorityOf
    have hp : (upgraded base key version).Path ≠ "" := by
      show ("/ws" : String) ≠ ""
      decide
    have e1 : (upgraded base key version).Host = base.Host := rfl
    have e2 : (upgraded base key version).User = base.User := rfl
    have e3 : (upgraded base key version).OmitHost = base.OmitHost := rfl
    rw [e1, e2, e3]
    simp only [hS, hp, ne_eq, not_false_eq_true, decide_True, Bool.true_or, Bool.or_true,
      Bool.true_and, if_true]
    by_cases ho : (base.OmitHost && decide (base.Host = "") && base.User.isNone) = true
    · simp [ho]
    · simp [ho]
  have hfrag : (if (upgraded base key version).Fragment ≠ "" then
      '#' :: (upgraded base key version).EscapedFragment else []) = fragmentOf base := rfl
  have hO : (upgraded base key version).Opaque = "" := hplain
  have hRQ : (upgraded base key version).RawQuery = (connectionQuery base key version).Encode :=
    rfl
  have hSch : (upgraded base key version).Scheme = (if base.Scheme = "https" then "wss" else "ws") :=
    rfl
  unfold URL.String URL.hierString
  rw [hfrag, hauth, hslash, hO, hRQ]
  rw [hSch]
  have hS3 : ¬ (if base.Scheme = "https" then "wss" else "ws" : String) = "" := by
    rw [← hSch]
    exact hS
  simp only [hS3, hQ, ne_eq, not_false_eq_true, not_true_eq_false, if_true, if_false,
    decide_True, decide_False, Bool.false_and, Bool.or_true, Bool.false_eq_true,
    List.append_nil, List.append_assoc, List.cons_append, List.nil_append,
    String.toList]

/-- C9, as the code has it. For every base address that parses, `run` dials the text that
`URL.String` gives for the base address with its scheme set to `wss` when the base address
has `https` and to `ws` otherwise (so `http` becomes `ws`), its path set to `/ws`, and its
query set to the encoding of a query in which `key` has the configured key as its only
value, `version` has the configured version as its only value when that is non-empty,
`version` is what the query of the base address holds for it when no version is
configured, and every other parameter is that of the base address. When the base address
has no opaque part, that text is the scheme, `:`, the authority of the base address, a
path that decodes to `/ws` (the text `/ws` itself unless the base address had its path in
another spelling), `?`, the query, and the fragment of the base address. When it has an
opaque part, the text is the scheme, `:`, the opaque part, `?`, the query and the
fragment, with no host and no path. -/
theorem connectionURL_ok (server key version : String) (base : URL)
    (hparse : Parse server = .ok base) :
    connectionURL server key version = .ok (upgraded base key version) ∧
      (∀ (env : Env) (port : Int),
        run env server key port version =
          match env.Dial (upgraded base key version).String with
          | .error err => { events := [], err := err }
          | .ok conn => readLoop env port conn.readErr conn.writeErr 0 conn.reads) ∧
      (base.Opaque = "" →
        (upgraded base key version).String =
          String.mk ((if base.Scheme = "https" then "wss" else "ws").toList ++ ':' ::
            authorityOf base ++ (upgraded base key version).EscapedPath
            ++ '?' :: (connectionQuery base key version).Encode.toList ++ fragmentOf base) ∧
        unescape (upgraded base key version).EscapedPath = utf8 "/ws".toList ∧
        (base.RawPath = "" → (upgraded base key version).EscapedPath = "/ws".toList)) ∧
      (base.Opaque ≠ "" →
        (upgraded base key version).String =
          String.mk ((if base.Scheme = "https" then "wss" else "ws").toList ++ ':' ::
            base.Opaque.toList
            ++ '?' :: (connectionQuery base key version).Encode.toList ++ fragmentOf base)) ∧
      (connectionQuery base key version).get (utf8 "key".toList) = some [utf8 key.toList] ∧
      (version ≠ "" → (connectionQuery base key version).get (utf8 "version".toList)
        = some [utf8 version.toList]) ∧
      (version = "" → (connectionQuery base key version).get (utf8 "version".toList)
        = base.Query.get (utf8 "version".toList)) ∧
      (∀ name, name ≠ utf8 "key".toList → name ≠ utf8 "version".toList →
        (connectionQuery base key version).get name = base.Query.get name) := by
  have hkv : utf8 "key".toList ≠ utf8 "version".toList := by decide
  have hurl : connectionURL server key version = .ok (upgraded base key version) := by
    unfold connectionURL upgraded
    rw [hparse]
    by_cases hs : base.Scheme = "https"
    · simp only [hs, if_true]
      rfl
    · simp only [hs, if_false]
      rfl
  have hQ : (connectionQuery base key version).Encode ≠ "" :=
    Values.Encode_ne_empty _ _ _ (connectionQuery_key base key version)
  refine ⟨hurl, ?_, ?_, ?_, connectionQuery_key base key version, ?_, ?_, ?_⟩
  · intro env port
    unfold run
    rw [hurl]
  · intro hplain
    refine ⟨upgraded_String server key version base hparse hplain, ?_, ?_⟩
    · rw [upgraded_EscapedPath]
      split
      · rename_i hc
        simp only [Bool.and_eq_true, decide_eq_true_eq] at hc
        exact hc.2
      · decide
    · intro hraw
      rw [upgraded_EscapedPath]
      simp [hraw]
  · intro hplain
    have hS3 : ¬ (if base.Scheme = "https" then "wss" else "ws" : String) = "" := by
      by_cases hs : base.Scheme = "https"
      · simp only [hs, if_true]
        decide
      · simp only [hs, if_false]
        decide
    have hO : (upgraded base key version).Opaque = base.Opaque := rfl
    have hRQ : (upgraded base key version).RawQuery
        = (connectionQuery base key version).Encode := rfl
    have hSch : (upgraded base key version).Scheme
        = (if base.Scheme = "https" then "wss" else "ws") := rfl
    have hfrag : (if (upgraded base key version).Fragment ≠ "" then
        '#' :: (upgraded base key version).EscapedFragment else []) = fragmentOf base := rfl
    unfold URL.String
    rw [hfrag, hO, hRQ, hSch]
    simp only [hS3, hQ, hplain, ne_eq, not_false_eq_true, not_true_eq_false, if_true,
      if_false, decide_True, Bool.or_true, List.append_assoc, List.cons_append,
      List.nil_append, String.toList]
  · intro hv
    unfold connectionQuery
    simp only [ne_eq, hv, not_false_eq_true, if_true]
    exact Values.get_store_same _ _ _
  · intro hv
    unfold connectionQuery
    simp only [hv, ne_eq, not_true_eq_false, if_false]
    unfold Values.Set
    exact Values.get_store_other _ _ _ _ (Ne.symm hkv)
  · intro name hk hver
    unfold connectionQuery
    by_cases hv : version = ""
    · simp only [hv, ne_eq, not_true_eq_false, if_false]
      unfold Values.Set
      exact Values.get_store_other _ _ _ _ hk
    · simp only [ne_eq, hv, not_false_eq_true, if_true]
      unfold Values.Set
      rw [Values.get_store_other _ _ _ _ hver]
      exact Values.get_store_other _ _ _ _ hk

/-- The base address `https://relay.example` with the key `k y` and the version `1.0`. -/
theorem connectionURL_ok_witness :
    Parse "https://relay.example" = .ok relayBase ∧ relayBase.Opaque = "" ∧
      connectionURL "https://relay.example" "k y" "1.0"
        = .ok (upgraded relayBase "k y" "1.0") ∧
      (upgraded relayBase "k y" "1.0").String
        = "wss://relay.example/ws?key=k+y&version=1.0" :=
  ⟨by decide, rfl,
    (connectionURL_ok "https://relay.example" "k y" "1.0" relayBase (by decide)).1,
    ((connectionURL_ok "https://relay.example" "k y" "1.0" relayBase (by decide)).2.2.1
      rfl).1⟩

/-- C9 fails as stated, in three ways. With the base address
`http://localhost:3000/?version=9` and no version configured, the dialled query has a
`version` parameter. The base address `localhost:3000` parses, with `localhost` as its
scheme and `3000` as an opaque part, and the dialled text `ws:3000?key=k` has no host and
no path `/ws`. The base address `wss://relay.example` is secure and the dialled text is
not: every scheme other than `https` becomes `ws`. -/
theorem connectionURL_counterexample :
    (Parse "http://localhost:3000/?version=9" = .ok versionedBase ∧
      connectionURL "http://localhost:3000/?version=9" "k" ""
        = .ok (upgraded versionedBase "k" "") ∧
      (upgraded versionedBase "k" "").String = "ws://localhost:3000/ws?key=k&version=9") ∧
    (Parse "localhost:3000" = .ok opaqueBase ∧
      connectionURL "localhost:3000" "k" "" = .ok (upgraded opaqueBase "k" "") ∧
      (upgraded opaqueBase "k" "").String = "ws:3000?key=k") ∧
    (Parse "wss://relay.example" = .ok secureBase ∧
      connectionURL "wss://relay.example" "k" "" = .ok (upgraded secureBase "k" "") ∧
      (upgraded secureBase "k" "").String = "ws://relay.example/ws?key=k") := by
  decide

/-! ## Failed writes -/

theorem heartbeatLoop_length (beatErr : Nat → Option String) (tick ticks : Nat) :
    (heartbeatLoop beatErr tick ticks).length = ticks := by
  induction ticks generalizing tick with
  | zero => rfl
  | succ n ih =>
    rw [heartbeatLoop, List.length_cons, ih]

/-- C8, as the code has it. When the write of the forwarder's success frame fails, `run`
leaves the read loop at once and returns that write error. When the round writes an error
frame (the message did not decode, its identifier is empty, or the forwarder failed), the
result of the write is dropped: whatever it is, the read loop goes on with the next
message. The keepalive goroutine drops the result of its write as well: every tick
writes, whatever the earlier writes returned. -/
theorem write_failure_policy (env : Env) (port : Int) (readErr : String)
    (writeErr : Nat → Option String) (round : Nat) (message : String) (rest : List String) :
    (∀ req resp e, env.Unmarshal message = (req, none) → req.ID ≠ "" →
        (forwardRequest env round req port).result = .ok resp → writeErr round = some e →
        readLoop env port readErr writeErr round (message :: rest) =
          { events := .forward req :: (forwardRequest env round req port).calls.map .call
              ++ [.write resp (some e)],
            err := e }) ∧
      (((env.Unmarshal message).2.isSome = true ∨ (env.Unmarshal message).1.ID = "" ∨
          ∃ err, (forwardRequest env round (env.Unmarshal message).1 port).result
            = .error err) →
        readLoop env port readErr writeErr round (message :: rest) =
          { events := (dispatch env port round (writeErr round) message).events
              ++ (readLoop env port readErr writeErr (round + 1) rest).events,
            err := (readLoop env port readErr writeErr (round + 1) rest).err }) ∧
      (∀ beatErr tick ticks, (heartbeatLoop beatErr tick ticks).length = ticks) := by
  refine ⟨?_, ?_, heartbeatLoop_length⟩
  · intro req resp e hdecode hid hok hw
    have hd := dispatch_valid env port round (writeErr round) message
      (by rw [hdecode]) (by rw [hdecode]; exact hid)
    rw [hdecode] at hd
    simp only [hok] at hd
    rw [readLoop_return env port readErr writeErr round message rest e (by rw [hd]; exact hw)]
    rw [hd, hw]
  · intro h
    apply readLoop_continue
    by_cases hinv : (env.Unmarshal message).2.isSome = true ∨ (env.Unmarshal message).1.ID = ""
    · rw [dispatch_invalid env port round (writeErr round) message hinv]
    · have hdec : (env.Unmarshal message).2 = none := by
        cases hq : (env.Unmarshal message).2 with
        | none => rfl
        | some x => exact absurd (Or.inl (by rw [hq]; rfl)) hinv
      have hid : (env.Unmarshal message).1.ID ≠ "" := fun hq => hinv (Or.inr hq)
      rcases h with h | h | ⟨err, herr⟩
      · exact absurd (Or.inl h) hinv
      · exact absurd h hid
      · rw [dispatch_valid env port round (writeErr round) message hdec hid]
        simp only [herr]

/-- A connection on which every write fails: the failed write of the success frame ends the
session with that error, the second message unread; the failed write of an error frame
does not, and the second message is handled. -/
theorem write_failure_policy_witness :
    readLoop servedEnv 8080 "EOF" (fun _ => some "broken pipe") 0 ["status", "status"] =
        { events := [.forward statusRequest, .call statusRequestBuilt,
                     .write statusResponse (some "broken pipe")],
          err := "broken pipe" } ∧
      readLoop servedEnv 8080 "EOF" (fun _ => some "broken pipe") 0 ["not-json", "not-json"] =
        { events := [.write invalidResponse (some "broken pipe"),
                     .write invalidResponse (some "broken pipe")],
          err := "EOF" } :=
  ⟨(write_failure_policy servedEnv 8080 "EOF" (fun _ => some "broken pipe") 0 "status"
      ["status"]).1 statusRequest statusResponse "broken pipe" rfl (by decide) rfl rfl,
    (write_failure_policy servedEnv 8080 "EOF" (fun _ => some "broken pipe") 0 "not-json"
      ["not-json"]).2.1 (Or.inl rfl)⟩

/-- C8 fails as stated: on a connection whose writes all fail, the failed write of an
`Invalid request` frame, and the failed write of the frame that reports a forwarder
failure, do not end the session; the next message is read and answered, and `run`
returns the later read error, not the write error. -/
theorem error_frame_write_counterexample :
    readLoop servedEnv 8080 "EOF" brokenWrites 0 ["not-json", "not-json"] =
        { events := [.write invalidResponse (some "broken pipe"),
                     .write invalidResponse (some "broken pipe")],
          err := "EOF" } ∧
      readLoop refusedEnv 8080 "EOF" brokenWrites 0 ["status", "not-json"] =
        { events := [.forward statusRequest, .call statusRequestBuilt,
                     .write refusedResponse (some "broken pipe"),
                     .write invalidResponse (some "broken pipe")],
          err := "EOF" } :=
  ⟨rfl, rfl⟩

/-! ## The target of the local request -/

theorem cutBefore_append (sep : Char) (l₁ l₂ : List Char) (h : ∀ c ∈ l₁, c ≠ sep) :
    cutBefore sep (l₁ ++ l₂) = l₁ ++ cutBefore sep l₂ := by
  unfold cutBefore
  exact List.takeWhile_append_of_pos (fun c hc => by simpa using h c hc)

theorem cutBefore_of_head (sep : Char) (l : List Char)
    (h : l = [] ∨ l.head? = some sep) : cutBefore sep l = [] := by
  unfold cutBefore
  rcases h with h | h
  · rw [h]
    rfl
  · cases l with
    | nil => rfl
    | cons c cs =>
      have hc : c = sep := by simpa using h
      simp [hc]

theorem cutBefore_not_mem (sep : Char) (l : List Char) (h : ∀ c ∈ l, c ≠ sep) :
    cutBefore sep l = l := by
  have := cutBefore_append sep l [] h
  simpa [cutBefore] using this

/-- What `splitQuery` keeps of a text made of a part without `?` and a tail that is empty
or begins with `/` or `?`: that part, followed by nothing or by something that begins
with `/`. -/
theorem splitQuery_keeps (B tail : List Char) (hB : ∀ c ∈ B, c ≠ '?')
    (htail : tail = [] ∨ tail.head? = some '/' ∨ tail.head? = some '?') :
    ∃ tail2, (splitQuery (B ++ tail)).1 = B ++ tail2 ∧
      (tail2 = [] ∨ tail2.head? = some '/') := by
  unfold splitQuery
  split
  · rename_i hforce
    simp only [Bool.and_eq_true, decide_eq_true_eq] at hforce
    obtain ⟨hlast, hcount⟩ := hforce
    have hcB : B.count '?' = 0 := List.count_eq_zero.mpr (fun hmem => hB '?' hmem rfl)
    rw [List.count_append, hcB, Nat.zero_add] at hcount
    cases tail with
    | nil => simp at hcount
    | cons c xs =>
      rw [List.dropLast_append_of_ne_nil _ (List.cons_ne_nil c xs)]
      rcases htail with h | h | h
      · cases h
      · have hc : c = '/' := by simpa using h
        subst hc
        cases xs with
        | nil => exact ⟨[], rfl, Or.inl rfl⟩
        | cons y ys => exact ⟨'/' :: (y :: ys).dropLast, rfl, Or.inr rfl⟩
      · have hc : c = '?' := by simpa using h
        subst hc
        rw [List.count_cons_self] at hcount
        have hxs0 : xs.count '?' = 0 := by omega
        cases xs with
        | nil => exact ⟨[], rfl, Or.inl rfl⟩
        | cons y ys =>
          exfalso
          have hlast2 : (y :: ys).getLast? = some '?' := by
            rw [List.getLast?_append_of_ne_nil _ (List.cons_ne_nil _ _)] at hlast
            rw [List.getLast?_cons_cons] at hlast
            exact hlast
          have hmem : '?' ∈ y :: ys := List.mem_of_getLast?_eq_some hlast2
          exact (List.count_eq_zero.mp hxs0) hmem
  · rcases htail with h | h | h
    · subst h
      refine ⟨[], ?_, Or.inl rfl⟩
      show cutBefore '?' (B ++ []) = B ++ []
      rw [List.append_nil]
      exact cutBefore_not_mem '?' B hB
    · cases tail with
      | nil => cases h
      | cons c xs =>
        have hc : c = '/' := by simpa using h
        subst hc
        refine ⟨'/' :: cutBefore '?' xs, ?_, Or.inr rfl⟩
        show cutBefore '?' (B ++ '/' :: xs) = B ++ '/' :: cutBefore '?' xs
        rw [cutBefore_append '?' B _ hB]
        simp [cutBefore]
    · refine ⟨[], ?_, Or.inl rfl⟩
      show cutBefore '?' (B ++ tail) = B ++ []
      rw [cutBefore_append '?' B _ hB, cutBefore_of_head '?' tail (Or.inr h)]

theorem parseHost_ok (host result : List Char) (h : parseHost host = .ok result) :
    result = host := by
  unfold parseHost at h
  split at h
  · split at h
    · cases h
    · split at h
      · cases h
      · split at h
        · split at h
          · cases h
          · split at h
            · cases h
            · split at h
              · cases h
              · exact (Except.ok.inj h).symm
        · split at h
          · cases h
          · exact (Except.ok.inj h).symm
  · split at h
    · cases h
    · split at h
      · cases h
      · exact (Except.ok.inj h).symm

theorem parseAuthority_ok (authority : List Char) (user : Option (List Char))
    (host : List Char) (hat : ∀ c ∈ authority, c ≠ '@')
    (h : parseAuthority authority = .ok (user, host)) : user = none ∧ host = authority := by
  unfold parseAuthority at h
  have hc : authority.contains '@' = false := by
    rw [Bool.eq_false_iff]
    intro hmem
    exact hat '@' (by simpa using hmem) rfl
  simp only [hc, Bool.not_false, if_true] at h
  split at h
  · cases h
  · rename_i host2 hhost
    have h2 := Except.ok.inj h
    have h3 := parseHost_ok _ _ hhost
    simp only [Prod.mk.injEq] at h2
    exact ⟨h2.1.symm, by rw [← h2.2, h3]⟩

/-- The hierarchical part `//authority` followed by nothing or by a path: the host is the
authority when the authority has no `/` and no `@`. -/
theorem parseHier_authority (scheme auth tail2 : List Char) (url u : URL)
    (hscheme : scheme ≠ [])
    (hslash : ∀ c ∈ auth, c ≠ '/') (hat : ∀ c ∈ auth, c ≠ '@')
    (htail2 : tail2 = [] ∨ tail2.head? = some '/')
    (h : parseHier scheme ('/' :: '/' :: (auth ++ tail2)) url = .ok u) :
    u.Scheme = url.Scheme ∧ u.Opaque = url.Opaque ∧ u.User = none ∧
      u.Host = String.mk auth := by
  unfold parseHier at h
  have h1 : (('/' :: '/' :: (auth ++ tail2)).head? ≠ some '/') = False := by simp
  have h2 : (('/' :: '/' :: (auth ++ tail2)).take 2 = ['/', '/']) = True := by simp
  simp only [h1, h2, hscheme, ne_eq, not_false_eq_true, decide_True, decide_False,
    Bool.false_and, Bool.true_or, Bool.and_self, Bool.false_eq_true, if_false, if_true,
    List.drop_succ_cons, List.drop_zero] at h
  have hauth : cutBefore '/' (auth ++ tail2) = auth := by
    rw [cutBefore_append '/' auth tail2 hslash, cutBefore_of_head '/' tail2 htail2,
      List.append_nil]
  rw [hauth] at h
  split at h
  · cases h
  · rename_i user host hpa
    obtain ⟨hu, hh⟩ := parseAuthority_ok auth user host hat hpa
    split at h
    · cases h
    · have h3 := Except.ok.inj h
      subst h3
      subst hu
      subst hh
      exact ⟨rfl, rfl, rfl, rfl⟩

theorem cutBefore_tail (tail : List Char)
    (htail : tail = [] ∨ tail.head? = some '/' ∨ tail.head? = some '?'
      ∨ tail.head? = some '#') :
    cutBefore '#' tail = [] ∨ (cutBefore '#' tail).head? = some '/'
      ∨ (cutBefore '#' tail).head? = some '?' := by
  cases tail with
  | nil => exact Or.inl rfl
  | cons c xs =>
    rcases htail with h | h | h | h
    · cases h
    · have hc : c = '/' := by simpa using h
      subst hc
      exact Or.inr (Or.inl (by simp [cutBefore]))
    · have hc : c = '?' := by simpa using h
      subst hc
      exact Or.inr (Or.inr (by simp [cutBefore]))
    · have hc : c = '#' := by simpa using h
      subst hc
      exact Or.inl (by simp [cutBefore])

/-- A URL text `http://` + authority + tail, where the authority has none of `/ ? # @` and
the tail is empty or begins with `/`, `?` or `#`: when it parses, its host is that
authority and it has no userinfo. -/
theorem Parse_http_authority (auth tail : List Char) (u : URL)
    (hauth : ∀ c ∈ auth, c ≠ '/' ∧ c ≠ '?' ∧ c ≠ '#' ∧ c ≠ '@')
    (htail : tail = [] ∨ tail.head? = some '/' ∨ tail.head? = some '?'
      ∨ tail.head? = some '#')
    (h : Parse (String.mk ('h' :: 't' :: 't' :: 'p' :: ':' :: '/' :: '/' :: (auth ++ tail)))
      = .ok u) :
    u.Scheme = "http" ∧ u.Opaque = "" ∧ u.User = none ∧ u.Host = String.mk auth := by
  unfold Parse at h
  have hcut : cutBefore '#' ('h' :: 't' :: 't' :: 'p' :: ':' :: '/' :: '/' :: (auth ++ tail))
      = 'h' :: 't' :: 't' :: 'p' :: ':' :: '/' :: '/' :: (auth ++ cutBefore '#' tail) := by
    have := cutBefore_append '#' ('h' :: 't' :: 't' :: 'p' :: ':' :: '/' :: '/' :: auth) tail
      (by
        intro c hc
        simp only [List.mem_cons] at hc
        rcases hc with hc | hc | hc | hc | hc | hc | hc | hc
        · subst hc; decide
        · subst hc; decide
        · subst hc; decide
        · subst hc; decide
        · subst hc; decide
        · subst hc; decide
        · subst hc; decide
        · exact (hauth c hc).2.2.1)
    simpa using this
  simp only [String.toList] at h
  rw [hcut] at h
  have key : ∀ url, parse ('h' :: 't' :: 't' :: 'p' :: ':' :: '/' :: '/'
      :: (auth ++ cutBefore '#' tail)) = .ok url →
      url.Scheme = "http" ∧ url.Opaque = "" ∧ url.User = none ∧ url.Host = String.mk auth := by
    intro url hp
    unfold parse at hp
    split at hp
    · cases hp
    · split at hp
      · rename_i hstar
        cases hstar
      · have hs : getScheme ('h' :: 't' :: 't' :: 'p' :: ':' :: '/' :: '/'
            :: (auth ++ cutBefore '#' tail))
            = .ok ("http".toList, '/' :: '/' :: (auth ++ cutBefore '#' tail)) := rfl
        rw [hs] at hp
        simp only at hp
        have hB : ∀ c ∈ '/' :: '/' :: auth, c ≠ '?' := by
          intro c hc
          simp only [List.mem_cons] at hc
          rcases hc with hc | hc | hc
          · subst hc; decide
          · subst hc; decide
          · exact (hauth c hc).2.1
        obtain ⟨tail2, hk, htail2⟩ := splitQuery_keeps ('/' :: '/' :: auth)
          (cutBefore '#' tail) hB (cutBefore_tail tail htail)
        have hk2 : (splitQuery ('/' :: '/' :: (auth ++ cutBefore '#' tail))).1
            = '/' :: '/' :: (auth ++ tail2) := by simpa using hk
        rw [hk2] at hp
        have := parseHier_authority "http".toList auth tail2 _ url (by decide)
          (fun c hc => (hauth c hc).1) (fun c hc => (hauth c hc).2.2.2) htail2 hp
        exact ⟨this.1, this.2.1, this.2.2.1, this.2.2.2⟩
  split at h
  · cases h
  · rename_i url hp
    have hk := key url hp
    split at h
    · have := Except.ok.inj h
      subst this
      exact hk
    · split at h
      · cases h
      · have := Except.ok.inj h
        subst this
        exact hk

theorem digitChar_isDigit (d : Nat) (h : d < 10) : (Nat.digitChar d).isDigit = true := by
  have key : ∀ k : Fin 10, (Nat.digitChar k.val).isDigit = true := by decide
  exact key ⟨d, h⟩

theorem toDigitsCore_isDigit (fuel n : Nat) (acc : List Char)
    (hacc : ∀ c ∈ acc, c.isDigit = true) :
    ∀ c ∈ Nat.toDigitsCore 10 fuel n acc, c.isDigit = true := by
  induction fuel generalizing n acc with
  | zero => exact hacc
  | succ fuel ih =>
    have hd : ∀ c ∈ Nat.digitChar (n % 10) :: acc, c.isDigit = true := by
      intro c hc
      rcases List.mem_cons.mp hc with hc | hc
      · rw [hc]
        exact digitChar_isDigit _ (Nat.mod_lt _ (by decide))
      · exact hacc c hc
    rw [Nat.toDigitsCore]
    split
    · exact hd
    · exact ih _ _ hd

theorem toDigitsCore_ne_nil (fuel n : Nat) (acc : List Char) (h : acc ≠ [] ∨ 0 < fuel) :
    Nat.toDigitsCore 10 fuel n acc ≠ [] := by
  induction fuel generalizing n acc with
  | zero =>
    rcases h with h | h
    · exact h
    · exact absurd h (Nat.lt_irrefl 0)
  | succ fuel ih =>
    rw [Nat.toDigitsCore]
    split
    · exact List.cons_ne_nil _ _
    · exact ih _ _ (Or.inl (List.cons_ne_nil _ _))

/-- The decimal text of a port: not empty, digits after an optional minus sign. -/
theorem formatInt_chars (port : Int) :
    (formatInt port).toList ≠ [] ∧
      ∀ c ∈ (formatInt port).toList, c.isDigit = true ∨ c = '-' := by
  cases port with
  | ofNat m =>
    have hrepr : (formatInt (Int.ofNat m)).toList = Nat.toDigitsCore 10 (m + 1) m [] := rfl
    rw [hrepr]
    refine ⟨toDigitsCore_ne_nil _ _ _ (Or.inr (Nat.succ_pos m)), fun c hc => Or.inl ?_⟩
    exact toDigitsCore_isDigit _ _ _ (fun _ h => by cases h) c hc
  | negSucc m =>
    have hrepr : (formatInt (Int.negSucc m)).toList
        = '-' :: Nat.toDigitsCore 10 (m + 1 + 1) (m + 1) [] := rfl
    rw [hrepr]
    refine ⟨List.cons_ne_nil _ _, fun c hc => ?_⟩
    rcases List.mem_cons.mp hc with hc | hc
    · exact Or.inr hc
    · exact Or.inl (toDigitsCore_isDigit _ _ _ (fun _ h => by cases h) c hc)

theorem portChar_ne (c : Char) (h : c.isDigit = true ∨ c = '-') :
    c ≠ '/' ∧ c ≠ '?' ∧ c ≠ '#' ∧ c ≠ '@' ∧ c ≠ ':' := by
  refine ⟨?_, ?_, ?_, ?_, ?_⟩ <;>
  · intro hc
    subst hc
    revert h
    decide

theorem removeEmptyPort_of_last (host : String) (h : host.toList.getLast? ≠ some ':') :
    removeEmptyPort host = host := by
  unfold removeEmptyPort
  have hd : decide (host.toList.getLast? = some ':') = false := by simpa using h
  simp only [hd, Bool.and_false, Bool.false_eq_true, if_false]

/-- C6, as the code has it. The request `forwardRequest` builds is built from the target
`http://127.0.0.1:<port><path>` (port in decimal, path taken verbatim from the frame), uses
the frame's method (`GET` when the frame's method is empty) and the decoded body as its
entity. When the path is empty or begins with `/`, `?` or `#`, the request has the scheme
`http`, no userinfo, and is addressed to the host `127.0.0.1` and the configured port. -/
theorem loopback_request (req : ProxyRequest) (port : Int) (httpReq : HttpRequest)
    (hbuild : buildRequest req port = .ok httpReq) :
    (∃ u, Parse ("http://127.0.0.1:" ++ formatInt port ++ req.Path) = .ok u ∧
        httpReq.URL = { u with Host := removeEmptyPort u.Host }) ∧
      httpReq.Method = (if req.Method = "" then "GET" else req.Method) ∧
      decodeBody req.Body = .ok httpReq.Body ∧
      (endsAuthority req.Path →
        Parse ("http://127.0.0.1:" ++ formatInt port ++ req.Path) = .ok httpReq.URL ∧
        httpReq.URL.Scheme = "http" ∧ httpReq.URL.User = none ∧
        httpReq.URL.Host = "127.0.0.1:" ++ formatInt port) := by
  obtain ⟨bodyBytes, u, hbody, _, hparse, hreq⟩ := buildRequest_ok req port httpReq hbuild
  subst hreq
  refine ⟨⟨u, hparse, rfl⟩, rfl, hbody, ?_⟩
  intro hpath
  obtain ⟨hne, hchars⟩ := formatInt_chars port
  have htarget : target port req.Path
      = String.mk ('h' :: 't' :: 't' :: 'p' :: ':' :: '/' :: '/'
          :: (("127.0.0.1:".toList ++ (formatInt port).toList) ++ req.Path.toList)) := by
    apply String.ext
    simp [target, String.data_append]
  have hauth : ∀ c ∈ "127.0.0.1:".toList ++ (formatInt port).toList,
      c ≠ '/' ∧ c ≠ '?' ∧ c ≠ '#' ∧ c ≠ '@' := by
    intro c hc
    rcases List.mem_append.mp hc with hc | hc
    · have hfixed : ∀ d ∈ "127.0.0.1:".toList, d ≠ '/' ∧ d ≠ '?' ∧ d ≠ '#' ∧ d ≠ '@' := by
        decide
      exact hfixed c hc
    · have := portChar_ne c (hchars c hc)
      exact ⟨this.1, this.2.1, this.2.2.1, this.2.2.2.1⟩
  have hp2 := hparse
  rw [htarget] at hp2
  obtain ⟨hs, _, hu, hh⟩ := Parse_http_authority _ _ u hauth hpath hp2
  have hhost : u.Host = "127.0.0.1:" ++ formatInt port := by
    rw [hh]
    apply String.ext
    simp [String.data_append]
  have hlast : u.Host.toList.getLast? ≠ some ':' := by
    rw [hh]
    show ("127.0.0.1:".toList ++ (formatInt port).toList).getLast? ≠ some ':'
    rw [List.getLast?_append_of_ne_nil _ hne]
    intro hl
    have hmem := List.mem_of_getLast?_eq_some hl
    exact (portChar_ne _ (hchars _ hmem)).2.2.2.2 rfl
  have hrem : removeEmptyPort u.Host = u.Host := removeEmptyPort_of_last _ hlast
  have hurl : ({ u with Host := removeEmptyPort u.Host } : URL) = u := by
    rw [hrem]
  refine ⟨?_, ?_, ?_, ?_⟩
  · show Parse (target port req.Path) = .ok { u with Host := removeEmptyPort u.Host }
    rw [hurl]
    exact hparse
  · exact hs
  · exact hu
  · show removeEmptyPort u.Host = _
    rw [hrem]
    exact hhost

/-- The frame `statusRequest` for port 8080: the path begins with `/`. -/
theorem loopback_request_witness :
    buildRequest statusRequest 8080 = .ok statusRequestBuilt ∧
      endsAuthority statusRequest.Path ∧
      statusRequestBuilt.URL.Host = "127.0.0.1:" ++ formatInt 8080 ∧
      statusRequestBuilt.URL.User = none :=
  ⟨rfl, Or.inr (Or.inl rfl),
    ((loopback_request statusRequest 8080 statusRequestBuilt rfl).2.2.2
      (Or.inr (Or.inl rfl))).2.2.2,
    ((loopback_request statusRequest 8080 statusRequestBuilt rfl).2.2.2
      (Or.inr (Or.inl rfl))).2.2.1⟩

/-- C6 fails as stated: a path can change the port and the host of the request. With the
port 80, the path `80/x` gives a request to port 8080, and the path `@example.com/` gives a
request to the host `example.com`, with `127.0.0.1:80` as its userinfo. -/
theorem loopback_counterexample :
    (buildRequest digitsPathRequest 80 = .ok digitsPathBuilt ∧
      digitsPathBuilt.URL.Host = "127.0.0.1:8080" ∧
      digitsPathBuilt.URL.Host ≠ "127.0.0.1:" ++ formatInt 80) ∧
    (buildRequest atPathRequest 80 = .ok atPathBuilt ∧
      atPathBuilt.URL.Host = "example.com" ∧
      atPathBuilt.URL.User = some "127.0.0.1:80" ∧
      atPathBuilt.URL.Host ≠ "127.0.0.1:" ++ formatInt 80) :=
  ⟨⟨rfl, rfl, by decide⟩, ⟨rfl, rfl, rfl, by decide⟩⟩

end WebVPN
